import Mathlib

/-!
Shallow embedding of the `cemint_insights` data pipeline
(`src/data_pipeline/transformers.py`, `pipelines.py`, `loaders.py`).

Tables (pandas DataFrames) are modelled as ordered lists of named columns.
A numeric (float64) cell is `Option ℚ` for data loaded from CSV, with
`none` playing the role of NaN (pandas uses NaN both for missing data and
for undefined arithmetic results).  Standard scaling divides by a square
root, which is irrational in general, so columns produced by the standard
scaler carry real-valued cells (`Option ℝ`); both kinds count as numeric
dtypes for `select_dtypes(include=[np.number])`.
-/

namespace Cemint

/-- Calendar timestamp, as produced by `pd.to_datetime` on an ISO-8601-like
string.  Validity (month in 1..12 and so on) is enforced by the parser. -/
structure DateTime where
  year : ℕ
  month : ℕ
  day : ℕ
  hour : ℕ
  minute : ℕ
  second : ℕ
deriving Repr, DecidableEq

/-- Leap-year test of the Gregorian calendar. -/
def isLeap (y : ℕ) : Bool :=
  (y % 4 == 0 && y % 100 != 0) || y % 400 == 0

/-- Number of days of month `m` of year `y` (Gregorian calendar). -/
def daysInMonth (y m : ℕ) : ℕ :=
  if m = 1 ∨ m = 3 ∨ m = 5 ∨ m = 7 ∨ m = 8 ∨ m = 10 ∨ m = 12 then 31
  else if m = 4 ∨ m = 6 ∨ m = 9 ∨ m = 11 then 30
  else if m = 2 then (if isLeap y then 29 else 28)
  else 0

/-- Parse the date part `YYYY-MM-DD`, range-checking month and day the way
`pd.to_datetime` rejects impossible calendar dates. -/
def parseDate (s : String) : Option (ℕ × ℕ × ℕ) :=
  match s.splitOn "-" with
  | [ys, ms, ds] =>
    match ys.toNat?, ms.toNat?, ds.toNat? with
    | some y, some m, some d =>
      if 1 ≤ m ∧ m ≤ 12 ∧ 1 ≤ d ∧ d ≤ daysInMonth y m then some (y, m, d) else none
    | _, _, _ => none
  | _ => none

/-- Parse the time part `HH:MM:SS` (or `HH:MM`), range-checked. -/
def parseTime (s : String) : Option (ℕ × ℕ × ℕ) :=
  match s.splitOn ":" with
  | [hs, ms, ss] =>
    match hs.toNat?, ms.toNat?, ss.toNat? with
    | some h, some m, some sec =>
      if h ≤ 23 ∧ m ≤ 59 ∧ sec ≤ 59 then some (h, m, sec) else none
    | _, _, _ => none
  | [hs, ms] =>
    match hs.toNat?, ms.toNat? with
    | some h, some m => if h ≤ 23 ∧ m ≤ 59 then some (h, m, 0) else none
    | _, _ => none
  | _ => none

/-- Model of `pd.to_datetime` on one string cell: an ISO-8601-like
timestamp `YYYY-MM-DD[ T]HH:MM:SS` (time part optional); anything else
fails to parse (with `errors="coerce"` it becomes NaT). -/
def parseTS (s : String) : Option DateTime :=
  match (if (s.splitOn "T").length = 2 then s.splitOn "T" else s.splitOn " ") with
  | [d] =>
    (parseDate d).map fun yr => DateTime.mk yr.1 yr.2.1 yr.2.2 0 0 0
  | [d, t] =>
    match parseDate d, parseTime t with
    | some yr, some hm => some (DateTime.mk yr.1 yr.2.1 yr.2.2 hm.1 hm.2.1 hm.2.2)
    | _, _ => none
  | _ => none

/-- Day of week of a `DateTime` with Monday = 0, as `pandas.Series.dt.weekday`
reports it; computed by Zeller's congruence. -/
def DateTime.weekday (dt : DateTime) : ℕ :=
  let m := if dt.month ≤ 2 then dt.month + 12 else dt.month
  let y := if dt.month ≤ 2 then dt.year - 1 else dt.year
  let K := y % 100
  let J := y / 100
  -- Zeller gives 0 = Saturday; shift so that 0 = Monday.
  ((dt.day + (13 * (m + 1)) / 5 + K + K / 4 + J / 4 + 5 * J) % 7 + 5) % 7

/-- Column payload of a table.  `num` columns are rational-valued floats
(cells loaded from CSV), `rnum` columns are real-valued floats (cells
produced by standard scaling, whose values are irrational in general),
`str` columns are object/string dtype, `dt` columns are datetime64, and
`boolean` columns are bool dtype (which has no missing values). -/
inductive ColData where
  | num (vals : List (Option ℚ))
  | rnum (vals : List (Option ℝ))
  | str (vals : List (Option String))
  | dt (vals : List (Option DateTime))
  | boolean (vals : List Bool)

/-- Number of cells of a column. -/
def ColData.length : ColData → ℕ
  | .num vs => vs.length
  | .rnum vs => vs.length
  | .str vs => vs.length
  | .dt vs => vs.length
  | .boolean vs => vs.length

/-- Numeric dtype test: `select_dtypes(include=[np.number])` keeps float
columns and excludes object, datetime and bool columns. -/
def ColData.isNumeric : ColData → Bool
  | .num _ => true
  | .rnum _ => true
  | _ => false

/-- Real-number view of a numeric column (rational cells are cast to ℝ);
`none` for non-numeric columns. -/
def ColData.rview : ColData → Option (List (Option ℝ))
  | .num vs => some (vs.map (Option.map (fun (q : ℚ) => (q : ℝ))))
  | .rnum vs => some vs
  | _ => none

/-- Test whether `dropna()` on the column yields an empty series (every
cell missing; a bool column has no missing cells). -/
def ColData.dropnaEmpty : ColData → Bool
  | .num vs => vs.all Option.isNone
  | .rnum vs => vs.all Option.isNone
  | .str vs => vs.all Option.isNone
  | .dt vs => vs.all Option.isNone
  | .boolean vs => vs.isEmpty

/-- A DataFrame: ordered, named columns. -/
structure DF where
  cols : List (String × ColData)

/-- Row count, read off the first column (pandas keeps all columns the
same length; `DF.WellFormed` states that invariant). -/
def DF.nRows (df : DF) : ℕ :=
  match df.cols with
  | [] => 0
  | c :: _ => c.2.length

/-- Every column has the table's row count. -/
def DF.WellFormed (df : DF) : Prop :=
  ∀ p ∈ df.cols, p.2.length = df.nRows

instance (df : DF) : Decidable df.WellFormed := by
  unfold DF.WellFormed; infer_instance

/-- Membership test `name in df.columns`. -/
def DF.hasCol (df : DF) (name : String) : Bool :=
  df.cols.any (fun p => p.1 == name)

/-- Column lookup `df[name]` (first column of that name). -/
def DF.getCol (df : DF) (name : String) : Option ColData :=
  (df.cols.find? (fun p => p.1 == name)).map (·.2)

/-- Column assignment `df[name] = data`: replaces the column in place if
the name exists, appends it at the end otherwise (pandas semantics). -/
def setColFun : List (String × ColData) → String → ColData → List (String × ColData)
  | [], n, d => [(n, d)]
  | (m, e) :: rest, n, d =>
    if m = n then (n, d) :: rest else (m, e) :: setColFun rest n d

/-- Column assignment on a DataFrame. -/
def DF.setCol (df : DF) (n : String) (d : ColData) : DF :=
  ⟨setColFun df.cols n d⟩

/-! ### Column statistics

Pandas and scikit-learn skip NaN cells when fitting statistics
(`skipna=True`, `nanmean`/`nanvar`/`nanmin`/`nanmax`).  A statistic of an
all-NaN column is itself NaN, modelled as `none`. -/

/-- Mean of the non-null cells (`Series.mean`, skipna); `none` if every
cell is null. -/
def meanQ (vs : List (Option ℚ)) : Option ℚ :=
  let xs := vs.reduceOption
  if xs.isEmpty then none else some (xs.sum / xs.length)

/-- Median of the non-null cells (`Series.median`): middle element of the
sorted values, or the average of the two middle elements. -/
def medianQ (vs : List (Option ℚ)) : Option ℚ :=
  let xs := (vs.reduceOption).mergeSort (fun a b => a ≤ b)
  let n := xs.length
  if n = 0 then none
  else if n % 2 = 1 then some (xs.getD (n / 2) 0)
  else some ((xs.getD (n / 2 - 1) 0 + xs.getD (n / 2) 0) / 2)

/-- Minimum of the non-null cells (`np.nanmin`), generic over the cell
field so that rational and real float columns share one definition. -/
def colMin {α : Type} [LinearOrder α] (vs : List (Option α)) : Option α :=
  match vs.reduceOption with
  | [] => none
  | x :: xs => some (xs.foldl min x)

/-- Maximum of the non-null cells (`np.nanmax`). -/
def colMax {α : Type} [LinearOrder α] (vs : List (Option α)) : Option α :=
  match vs.reduceOption with
  | [] => none
  | x :: xs => some (xs.foldl max x)

/-- Real-valued mean of the non-null cells.  Division by zero yields the
Lean junk value `0` for an all-null column; callers guard that case the
way pandas propagates NaN. -/
noncomputable def meanR (vs : List (Option ℝ)) : ℝ :=
  (vs.reduceOption).sum / (vs.reduceOption).length

/-- Real-valued sample variance with ddof = 1, as `Series.std` uses
(`df.std()` defaults to `ddof=1`).  With fewer than two non-null cells the
denominator is zero and the Lean value is the junk `0`; pandas reports NaN
there and `detect_anomalies` treats that case separately. -/
noncomputable def svarR (vs : List (Option ℝ)) : ℝ :=
  ((vs.reduceOption).map (fun x => (x - meanR vs) ^ 2)).sum /
    ((vs.reduceOption).length - 1 : ℝ)

/-- Real-valued population variance (ddof = 0), for standard scaling of
real-valued columns. -/
noncomputable def popVarR (vs : List (Option ℝ)) : ℝ :=
  ((vs.reduceOption).map (fun x => (x - meanR vs) ^ 2)).sum /
    ((vs.reduceOption).length : ℝ)

/-! ### Transformers (`src/data_pipeline/transformers.py`)

Python exceptions (`KeyError`, `ValueError`, `TypeError`) are modelled as
`Except PErr`. -/

/-- Error taxonomy of the pipeline, mirroring the exceptions the Python
code raises. -/
inductive PErr where
  | schemaNotFound (stage : String)
  | missingColumns (stage : String) (cols : List String)
  | emptyColumns (stage : String) (cols : List String)
  | timestampParse (stage : String)
  | missingColumn (col : String)
  | noNumericColumns
  | unsupportedMethod (what : String)
  | typeError (what : String)
deriving Repr, DecidableEq

/-- Conversion of a whole column by `pd.to_datetime(..., errors="coerce")`:
string cells are parsed (unparseable ones and nulls become NaT = `none`),
datetime cells pass through.  The pipeline's timestamp columns are ISO
strings read from CSV; numeric/bool timestamp columns are outside the
modelled data and coerce to NaT here. -/
def toDTList : ColData → List (Option DateTime)
  | .str vs => vs.map (fun s? => s?.bind parseTS)
  | .dt vs => vs
  | .num vs => vs.map (fun _ => none)
  | .rnum vs => vs.map (fun _ => none)
  | .boolean vs => vs.map (fun _ => none)

/-- Embeds `add_time_features` (transformers.py lines 28-54): raises
`KeyError` when the timestamp column is absent, otherwise converts it to
datetime with `errors="coerce"` and derives `hour`, `day`, `weekday`,
`month` columns; rows with unparseable timestamps get null (NaN) derived
features and stay in the table. -/
def add_time_features (df : DF) (timestamp_col : String := "timestamp") :
    Except PErr DF :=
  match df.getCol timestamp_col with
  | none => .error (.missingColumn timestamp_col)
  | some cd =>
    let dts := toDTList cd
    let df := df.setCol timestamp_col (.dt dts)
    let df := df.setCol "hour" (.num (dts.map (Option.map (fun d => (d.hour : ℚ)))))
    let df := df.setCol "day" (.num (dts.map (Option.map (fun d => (d.day : ℚ)))))
    let df := df.setCol "weekday" (.num (dts.map (Option.map (fun d => (d.weekday : ℚ)))))
    let df := df.setCol "month" (.num (dts.map (Option.map (fun d => (d.month : ℚ)))))
    .ok df

/-- The `fillna` of one column with a statistic of that same column: if
the statistic is NaN (all-null column) nothing is filled, since
`fillna(NaN)` leaves nulls in place. -/
def fillCol {α : Type} (stat : List (Option α) → Option α)
    (vs : List (Option α)) : List (Option α) :=
  match stat vs with
  | none => vs
  | some μ => vs.map (fun c => some (c.getD μ))

/-- Real-valued median, for filling real-valued columns. -/
noncomputable def medianR (vs : List (Option ℝ)) : Option ℝ :=
  let xs := (vs.reduceOption).mergeSort (fun a b => if a ≤ b then true else false)
  let n := xs.length
  if n = 0 then none
  else if n % 2 = 1 then some (xs.getD (n / 2) 0)
  else some ((xs.getD (n / 2 - 1) 0 + xs.getD (n / 2) 0) / 2)

/-- Real-valued mean as an `Option`, NaN on an all-null column. -/
noncomputable def meanROpt (vs : List (Option ℝ)) : Option ℝ :=
  if (vs.reduceOption).isEmpty then none else some (meanR vs)

/-- The fill of one column: numeric columns are filled with their own
statistic, all others pass through untouched. -/
noncomputable def fillColData (statQ : List (Option ℚ) → Option ℚ)
    (statR : List (Option ℝ) → Option ℝ) : ColData → ColData
  | .num vs => .num (fillCol statQ vs)
  | .rnum vs => .rnum (fillCol statR vs)
  | c => c

/-- Applies per-column fills to the numeric columns only. -/
noncomputable def fillNumeric (statQ : List (Option ℚ) → Option ℚ)
    (statR : List (Option ℝ) → Option ℝ) (df : DF) : DF :=
  ⟨df.cols.map (fun p => (p.1, fillColData statQ statR p.2))⟩

/-- Embeds `fill_missing_values` (transformers.py lines 117-145): when the
table has no numeric columns it is returned unchanged (before the strategy
string is even inspected); otherwise nulls of each numeric column are
filled with that column's own mean/median (or with the constant 0), and an
unknown strategy raises `ValueError`. -/
noncomputable def fill_missing_values (df : DF) (method : String := "mean") :
    Except PErr DF :=
  if df.cols.all (fun p => p.2.isNumeric = false) then .ok df
  else if method = "mean" then .ok (fillNumeric meanQ meanROpt df)
  else if method = "median" then .ok (fillNumeric medianQ medianR df)
  else if method = "zero" then
    .ok (fillNumeric (fun _ => some 0) (fun _ => some 0) df)
  else .error (.unsupportedMethod method)

/-- Min-max scaling of one column, after sklearn's `MinMaxScaler` with
the default feature range [0, 1]: a zero data range is replaced by 1
(`_handle_zeros_in_scale`), and an all-null column is left as it is (its
fitted statistics are NaN). -/
def minmaxCol {α : Type} [LinearOrderedField α] (vs : List (Option α)) :
    List (Option α) :=
  match colMin vs, colMax vs with
  | some mn, some mx =>
    vs.map (Option.map (fun x =>
      (x - mn) / (if mx - mn = 0 then 1 else mx - mn)))
  | _, _ => vs

/-- Standard scaling of one real column, after sklearn's
`StandardScaler`: cell ↦ (cell − mean)/scale with scale = √variance
(ddof = 0), a zero scale replaced by 1 (`_handle_zeros_in_scale`), and an
all-null column left as it is (its fitted statistics are NaN). -/
noncomputable def stdColR (vs : List (Option ℝ)) : List (Option ℝ) :=
  if (vs.reduceOption).isEmpty then vs
  else
    vs.map (Option.map (fun x => (x - meanR vs) /
      (if popVarR vs = 0 then 1 else Real.sqrt (popVarR vs))))

/-- Fitted scaler state: the per-numeric-column statistics the scaler
needs to reproduce the transform ((min, max) or (mean, var)); `none` for
an all-null column whose fitted statistics are NaN. -/
inductive Scaler where
  | minmax (stats : List (String × Option (ℝ × ℝ)))
  | standard (stats : List (String × Option (ℝ × ℝ)))

/-- Fitted (min, max) of a numeric column, on its real view. -/
noncomputable def fitMinmax (c : ColData) : Option (ℝ × ℝ) :=
  match c.rview with
  | none => none
  | some rv =>
    match colMin rv, colMax rv with
    | some mn, some mx => some (mn, mx)
    | _, _ => none

/-- Fitted (mean, variance) of a numeric column, on its real view. -/
noncomputable def fitStd (c : ColData) : Option (ℝ × ℝ) :=
  match c.rview with
  | none => none
  | some rv =>
    if rv.reduceOption.isEmpty then none else some (meanR rv, popVarR rv)

/-- Min-max rescaling of one column (non-numeric columns pass through). -/
noncomputable def minmaxColData : ColData → ColData
  | .num vs => .num (minmaxCol vs)
  | .rnum vs => .rnum (minmaxCol vs)
  | c => c

/-- Standard rescaling of one column (non-numeric columns pass through).
A rational float column is scaled on its real view, since the scaled
values (x − mean)/√var are irrational in general. -/
noncomputable def stdColData : ColData → ColData
  | .num vs => .rnum (stdColR (vs.map (Option.map (fun (q : ℚ) => (q : ℝ)))))
  | .rnum vs => .rnum (stdColR vs)
  | c => c

/-- Embeds `normalize_features` (transformers.py lines 84-111): raises
`ValueError` when no numeric column exists (checked first), then
dispatches on the method string, raising `ValueError` for anything other
than "minmax"/"standard"; on success every numeric column is rescaled
with a freshly fitted scaler and the pair (table, scaler) is returned. -/
noncomputable def normalize_features (df : DF) (method : String := "minmax") :
    Except PErr (DF × Scaler) :=
  if df.cols.all (fun p => p.2.isNumeric = false) then .error .noNumericColumns
  else if method = "minmax" then
    .ok (⟨df.cols.map (fun p => (p.1, minmaxColData p.2))⟩,
      .minmax (df.cols.filterMap (fun p =>
        if p.2.isNumeric then some (p.1, fitMinmax p.2) else none)))
  else if method = "standard" then
    .ok (⟨df.cols.map (fun p => (p.1, stdColData p.2))⟩,
      .standard (df.cols.filterMap (fun p =>
        if p.2.isNumeric then some (p.1, fitStd p.2) else none)))
  else .error (.unsupportedMethod method)

/-- One cell's contribution to the anomaly flag of its row: the z-score
test `|(x − mean)/std| > threshold` on a numeric column, with `std` the
sample standard deviation (`Series.std`, ddof = 1).  NaN comparisons are
false in numpy, so a null cell, a column with fewer than two non-null
cells (NaN std) and a zero-variance column (0/0 = NaN z-score) all yield
`false`, exactly as the float code does. -/
noncomputable def cellFlag (rv : List (Option ℝ)) (t : ℚ) (i : ℕ) : Bool :=
  match rv.getD i none with
  | none => false
  | some v =>
    if rv.reduceOption.length ≤ 1 then false
    else if svarR rv = 0 then false
    else if (t : ℝ) < |(v - meanR rv) / Real.sqrt (svarR rv)| then true
    else false

/-- Real views of the numeric columns of the table, in column order: the
`df.select_dtypes(include=[np.number])` selection. -/
def numViews (df : DF) : List (List (Option ℝ)) :=
  df.cols.filterMap (fun p => p.2.rview)

/-- Embeds `detect_anomalies` (transformers.py lines 151-176): with no
numeric columns an all-false `is_anomaly` column is added; otherwise a row
is flagged when any numeric column's absolute z-score exceeds the
threshold. -/
noncomputable def detect_anomalies (df : DF) (threshold : ℚ := 3) : DF :=
  if (numViews df).isEmpty then
    df.setCol "is_anomaly" (.boolean (List.replicate df.nRows false))
  else
    df.setCol "is_anomaly"
      (.boolean ((List.range df.nRows).map
        (fun i => (numViews df).any (fun rv => cellFlag rv threshold i))))

/-- Linear-interpolation percentile of a nonempty sorted list, as
`np.percentile` computes it (default `linear` interpolation). -/
def percentileOfSorted (xs : List ℚ) (p : ℚ) : ℚ :=
  let n := xs.length
  let h : ℚ := (n - 1 : ℚ) * p / 100
  let i : ℕ := (⌊h⌋).toNat
  if i + 1 < n then xs.getD i 0 + (h - i) * (xs.getD (i + 1) 0 - xs.getD i 0)
  else xs.getD (n - 1) 0

/-- Percentile of the non-null cells of a rational column; `none` when
`dropna()` is empty (`np.percentile` raises on an empty array). -/
def percentileQ (vs : List (Option ℚ)) (p : ℚ) : Option ℚ :=
  let xs := (vs.reduceOption).mergeSort (fun a b => a ≤ b)
  if xs.isEmpty then none else some (percentileOfSorted xs p)

/-- Linear-interpolation percentile over the reals. -/
noncomputable def percentileOfSortedR (xs : List ℝ) (p : ℚ) : ℝ :=
  let n := xs.length
  let h : ℝ := (n - 1 : ℝ) * (p : ℝ) / 100
  let i : ℕ := (⌊h⌋).toNat
  if i + 1 < n then xs.getD i 0 + (h - i) * (xs.getD (i + 1) 0 - xs.getD i 0)
  else xs.getD (n - 1) 0

/-- Percentile of the non-null cells of a real column. -/
noncomputable def percentileR (vs : List (Option ℝ)) (p : ℚ) : Option ℝ :=
  let xs := (vs.reduceOption).mergeSort (fun a b => if a ≤ b then true else false)
  if xs.isEmpty then none else some (percentileOfSortedR xs p)

/-- The `np.clip` of one rational cell list to bounds. -/
def clipCellsQ (vs : List (Option ℚ)) (lo hi : ℚ) : List (Option ℚ) :=
  vs.map (Option.map (fun x => min hi (max lo x)))

/-- The `np.clip` of one real cell list to bounds. -/
noncomputable def clipCellsR (vs : List (Option ℝ)) (lo hi : ℝ) : List (Option ℝ) :=
  vs.map (Option.map (fun x => min hi (max lo x)))

/-- Clipping of one named column of the table: percentile bounds are fit
on the column's `dropna()` and the column is clipped to them.  A bool
column is promoted to its numeric 0/1 values (numpy casts bool to float);
`np.percentile` raises on an empty `dropna()` (modelled `typeError`) and
on object/datetime columns. -/
noncomputable def clipOne (df : DF) (col : String) (lower upper : ℚ) :
    Except PErr DF :=
  match df.getCol col with
  | none => .ok df
  | some (.num vs) =>
    match percentileQ vs lower, percentileQ vs upper with
    | some lo, some hi => .ok (df.setCol col (.num (clipCellsQ vs lo hi)))
    | _, _ => .error (.typeError col)
  | some (.rnum vs) =>
    match percentileR vs lower, percentileR vs upper with
    | some lo, some hi => .ok (df.setCol col (.rnum (clipCellsR vs lo hi)))
    | _, _ => .error (.typeError col)
  | some (.boolean bs) =>
    match percentileQ (bs.map (fun b => some (if b then 1 else 0))) lower,
        percentileQ (bs.map (fun b => some (if b then 1 else 0))) upper with
    | some lo, some hi =>
      .ok (df.setCol col
        (.num (clipCellsQ (bs.map (fun b => some (if b then 1 else 0))) lo hi)))
    | _, _ => .error (.typeError col)
  | some _ => .error (.typeError col)

/-- Embeds `clip_outliers` (transformers.py lines 182-207): each named
column present in the table is clipped to its own
[lower, upper]-percentile range; names absent from the table are skipped
with only a logged warning.  `np.percentile` rejects percentiles outside
[0, 100]. -/
noncomputable def clip_outliers (df : DF) (columns : List String)
    (lower_percentile : ℚ := 1) (upper_percentile : ℚ := 99) :
    Except PErr DF :=
  if 0 ≤ lower_percentile ∧ lower_percentile ≤ 100 ∧
      0 ≤ upper_percentile ∧ upper_percentile ≤ 100 then
    columns.foldlM (fun acc col => clipOne acc col lower_percentile upper_percentile) df
  else .error (.typeError "percentile out of range")

/-- Row-wise quotient of the power column by the throughput column.  The
division is applied unconditionally (the source has no guard for a zero
divisor); a zero throughput makes the float quotient non-finite (±inf, or
NaN for 0/0), which this `Option ℚ`-free real embedding records as a null
cell, and a null operand propagates as null (NaN). -/
noncomputable def spcCells (power throughput : List (Option ℝ)) :
    List (Option ℝ) :=
  List.zipWith (fun pc tc =>
    match pc, tc with
    | some pv, some tv => if tv = 0 then none else some (pv / tv)
    | _, _ => none) power throughput

/-- Embeds `create_kpis` (transformers.py lines 243-261): when both
`mill_power_kwh` and `throughput_tph` are present, a
`specific_power_consumption` column holding their row-wise quotient is
added; otherwise the table is returned unchanged with only a logged
warning.  Dividing non-numeric columns is a pandas `TypeError`. -/
noncomputable def create_kpis (df : DF) : Except PErr DF :=
  if df.hasCol "mill_power_kwh" ∧ df.hasCol "throughput_tph" then
    match (df.getCol "mill_power_kwh").bind ColData.rview,
        (df.getCol "throughput_tph").bind ColData.rview with
    | some power, some throughput =>
      .ok (df.setCol "specific_power_consumption" (.rnum (spcCells power throughput)))
    | _, _ => .error (.typeError "specific_power_consumption")
  else .ok df

/-! ### Validators (`loaders.py`, `pipelines.py`) and the stage pipeline -/

/-- Test that `pd.to_datetime(df["timestamp"])` succeeds (no
`errors="coerce"`): the column must exist, and, for a string column, every
non-null cell must parse (a null coerces to NaT silently).  Datetime
columns pass; numeric columns convert as epochs without error; a bool
column raises. -/
def tsParseOK (df : DF) : Bool :=
  match df.getCol "timestamp" with
  | some (.str vs) =>
    vs.all (fun s? =>
      match s? with
      | none => true
      | some s => (parseTS s).isSome)
  | some (.dt _) => true
  | some (.num _) => true
  | some (.rnum _) => true
  | some (.boolean _) => false
  | none => false

/-- Names of the all-null columns of the table. -/
def emptyColNames (df : DF) : List String :=
  (df.cols.filter (fun p => p.2.dropnaEmpty)).map (·.1)

/-- Embeds the loader-level `validate` (loaders.py lines 241-269):
missing declared columns are reported first, then all-null columns; the
timestamp parse runs inside a `try` whose `except` also catches the
`KeyError` of a missing `timestamp` column, so the absence of `timestamp`
is reported as "Timestamp parse error". -/
def validate (df : DF) (fields : List String) : Bool × String :=
  let missing := fields.filter (fun c => ¬ df.hasCol c)
  if missing ≠ [] then
    (false, "Missing columns: " ++ String.intercalate ", " missing)
  else
    let empty := emptyColNames df
    if empty ≠ [] then
      (false, "Empty columns: " ++ String.intercalate ", " empty)
    else if tsParseOK df then (true, "OK")
    else (false, "Timestamp parse error")

/-- Embeds the pipeline-level `validate_schema` (pipelines.py lines
49-102): looks the stage up in the schema registry, raises `ValueError`
for missing declared columns, then for all-null columns, then for an
unparseable `timestamp` column (only when one exists); extra columns only
warn. -/
def validate_schema (df : DF) (schemas : List (String × List String))
    (stage : String) : Except PErr Unit :=
  match schemas.find? (fun p => p.1 == stage) with
  | none => .error (.schemaNotFound stage)
  | some sch =>
    let missing := sch.2.filter (fun c => ¬ df.hasCol c)
    if missing ≠ [] then .error (.missingColumns stage missing)
    else
      let empty := emptyColNames df
      if empty ≠ [] then .error (.emptyColumns stage empty)
      else if df.hasCol "timestamp" ∧ tsParseOK df = false then
        .error (.timestampParse stage)
      else .ok ()

/-- Embeds `preprocess_single` (pipelines.py lines 110-152): schema
validation (whose exception is not caught), then `add_time_features`,
then `normalize_features`; each step's exception propagates to the
caller. -/
noncomputable def preprocess_single (df : DF)
    (schemas : List (String × List String)) (stage : String)
    (normalize_method : String := "minmax") : Except PErr DF := do
  let _ ← validate_schema df schemas stage
  let df ← add_time_features df
  let pr ← normalize_features df normalize_method
  pure pr.1

/-! ### Basic lemmas about the table operations -/

theorem getCol_setCol_self (df : DF) (n : String) (d : ColData) :
    (df.setCol n d).getCol n = some d := by
  show ((setColFun df.cols n d).find? (fun p => p.1 == n)).map (·.2) = some d
  induction df.cols with
  | nil =>
    simp [setColFun, List.find?_cons_of_pos]
  | cons c rest ih =>
    by_cases h : c.1 = n
    · simp [setColFun, if_pos h, List.find?_cons_of_pos]
    · rw [setColFun, if_neg h,
        List.find?_cons_of_neg _ (by simpa using h)]
      exact ih

theorem getCol_setCol_ne (df : DF) (n m : String) (d : ColData)
    (h : m ≠ n) : (df.setCol n d).getCol m = df.getCol m := by
  show ((setColFun df.cols n d).find? (fun p => p.1 == m)).map (·.2) =
    (df.cols.find? (fun p => p.1 == m)).map (·.2)
  induction df.cols with
  | nil =>
    rw [setColFun, List.find?_cons_of_neg _ (by simpa using Ne.symm h)]
  | cons c rest ih =>
    by_cases hc : c.1 = n
    · rw [setColFun, if_pos hc,
        List.find?_cons_of_neg _ (by simpa using Ne.symm h),
        List.find?_cons_of_neg _ (by simp [hc, Ne.symm h])]
    · rw [setColFun, if_neg hc]
      by_cases hm : c.1 = m
      · rw [List.find?_cons_of_pos _ (by simpa using hm),
          List.find?_cons_of_pos _ (by simpa using hm)]
      · rw [List.find?_cons_of_neg _ (by simpa using hm),
          List.find?_cons_of_neg _ (by simpa using hm)]
        exact ih

theorem mem_setColFun {cols : List (String × ColData)} {n : String}
    {d : ColData} {p : String × ColData} (hp : p ∈ setColFun cols n d) :
    p = (n, d) ∨ p ∈ cols := by
  induction cols with
  | nil => simpa [setColFun] using hp
  | cons c rest ih =>
    by_cases h : c.1 = n
    · simp only [setColFun, if_pos h] at hp
      rcases List.mem_cons.1 hp with h1 | h1
      · exact Or.inl h1
      · exact Or.inr (List.mem_cons_of_mem _ h1)
    · simp only [setColFun, if_neg h] at hp
      rcases List.mem_cons.1 hp with h1 | h1
      · exact Or.inr (h1 ▸ List.mem_cons_self _ _)
      · rcases ih h1 with h2 | h2
        · exact Or.inl h2
        · exact Or.inr (List.mem_cons_of_mem _ h2)

theorem nRows_setCol (df : DF) (n : String) (d : ColData)
    (hd : d.length = df.nRows) : (df.setCol n d).nRows = df.nRows := by
  rcases df with ⟨cols⟩
  cases cols with
  | nil => simpa [DF.setCol, setColFun, DF.nRows] using hd
  | cons c rest =>
    by_cases h : c.1 = n
    · simpa [DF.setCol, setColFun, h, DF.nRows] using hd
    · simp [DF.setCol, setColFun, h, DF.nRows]

theorem WellFormed_setCol {df : DF} {n : String} {d : ColData}
    (hw : df.WellFormed) (hd : d.length = df.nRows) :
    (df.setCol n d).WellFormed := by
  intro p hp
  rw [nRows_setCol df n d hd]
  rcases mem_setColFun hp with h | h
  · rw [h]; exact hd
  · exact hw p h

theorem nRows_mapVals (df : DF) (g : ColData → ColData)
    (hg : ∀ c, (g c).length = c.length) :
    (DF.mk (df.cols.map (fun p => (p.1, g p.2)))).nRows = df.nRows := by
  rcases df with ⟨cols⟩
  cases cols with
  | nil => rfl
  | cons c rest => simp [DF.nRows, hg]

theorem WellFormed_mapVals {df : DF} (g : ColData → ColData)
    (hg : ∀ c, (g c).length = c.length) (hw : df.WellFormed) :
    (DF.mk (df.cols.map (fun p => (p.1, g p.2)))).WellFormed := by
  intro p hp
  rw [nRows_mapVals df g hg]
  rcases List.mem_map.1 hp with ⟨q, hq, rfl⟩
  simpa [hg] using hw q hq

theorem getCol_mapVals (df : DF) (g : ColData → ColData) (n : String) :
    (DF.mk (df.cols.map (fun p => (p.1, g p.2)))).getCol n =
      (df.getCol n).map g := by
  show ((df.cols.map (fun p => (p.1, g p.2))).find? (fun p => p.1 == n)).map (·.2) =
    ((df.cols.find? (fun p => p.1 == n)).map (·.2)).map g
  induction df.cols with
  | nil => rfl
  | cons c rest ih =>
    rw [List.map_cons]
    by_cases h : c.1 = n
    · rw [List.find?_cons_of_pos _ (by simpa using h),
        List.find?_cons_of_pos _ (by simpa using h)]
      rfl
    · rw [List.find?_cons_of_neg _ (by simpa using h),
        List.find?_cons_of_neg _ (by simpa using h)]
      exact ih

theorem getCol_mem {df : DF} {n : String} {c : ColData}
    (h : df.getCol n = some c) : (n, c) ∈ df.cols := by
  unfold DF.getCol at h
  rcases Option.map_eq_some'.1 h with ⟨p, hp, rfl⟩
  have hmem := List.mem_of_find?_eq_some hp
  have hname := List.find?_some hp
  have : p.1 = n := by simpa using hname
  rcases p with ⟨pn, pc⟩
  simp only at this
  rw [this] at hmem
  exact hmem

theorem hasCol_false_getCol {df : DF} {n : String}
    (h : df.hasCol n = false) : df.getCol n = none := by
  unfold DF.hasCol at h
  unfold DF.getCol
  rw [List.find?_eq_none.2]
  · rfl
  · intro p hp
    intro hpn
    rw [List.any_eq_false] at h
    exact absurd hpn (by simpa using h p hp)

theorem hasCol_true_iff {df : DF} {n : String} :
    df.hasCol n = true ↔ ∃ c, df.getCol n = some c := by
  constructor
  · intro h
    unfold DF.hasCol at h
    rw [List.any_eq_true] at h
    have hs : (df.cols.find? (fun q => q.1 == n)).isSome := by
      rw [List.find?_isSome]
      exact h
    rcases Option.isSome_iff_exists.1 hs with ⟨q, hq⟩
    exact ⟨q.2, by unfold DF.getCol; rw [hq]; rfl⟩
  · rintro ⟨c, hc⟩
    unfold DF.getCol at hc
    rcases Option.map_eq_some'.1 hc with ⟨p, hp, rfl⟩
    unfold DF.hasCol
    rw [List.any_eq_true]
    refine ⟨p, List.mem_of_find?_eq_some hp, ?_⟩
    have := List.find?_some hp
    simpa using this

/-! ### Length preservation of the per-column operations -/

theorem fillCol_length {α : Type} (stat : List (Option α) → Option α)
    (vs : List (Option α)) : (fillCol stat vs).length = vs.length := by
  unfold fillCol
  cases stat vs <;> simp

theorem fillColData_length (statQ : List (Option ℚ) → Option ℚ)
    (statR : List (Option ℝ) → Option ℝ) (c : ColData) :
    (fillColData statQ statR c).length = c.length := by
  cases c <;> simp [fillColData, ColData.length, fillCol_length]

theorem minmaxCol_length {α : Type} [LinearOrderedField α]
    (vs : List (Option α)) : (minmaxCol vs).length = vs.length := by
  unfold minmaxCol
  cases colMin vs <;> cases colMax vs <;> simp

theorem stdColR_length (vs : List (Option ℝ)) :
    (stdColR vs).length = vs.length := by
  unfold stdColR
  split <;> simp

theorem minmaxColData_length (c : ColData) :
    (minmaxColData c).length = c.length := by
  cases c <;> simp [minmaxColData, ColData.length, minmaxCol_length]

theorem stdColData_length (c : ColData) :
    (stdColData c).length = c.length := by
  cases c <;> simp [stdColData, ColData.length, stdColR_length]

theorem toDTList_length (c : ColData) : (toDTList c).length = c.length := by
  cases c <;> simp [toDTList, ColData.length]

theorem spcCells_length (p t : List (Option ℝ)) :
    (spcCells p t).length = min p.length t.length := by
  simp [spcCells]

/-! ### Claim C1

The pipeline spec says a validation failure of a stage's table is logged
and the stage is processed anyway.  In the code, `validate_schema` raises
`ValueError` and `preprocess_single` does not catch it, so a validation
failure aborts the stage before any transform runs. -/

/-- C1, counterexample to the claim as stated: a concrete table whose
validation fails (declared column "b" missing); `preprocess_single`
propagates the validation error instead of proceeding with the
transforms. -/
theorem c1_counterexample_validation_aborts :
    validate_schema ⟨[("a", ColData.num [some 1])]⟩ [("s1", ["a", "b"])] "s1"
      = .error (.missingColumns "s1" ["b"]) ∧
    preprocess_single ⟨[("a", ColData.num [some 1])]⟩ [("s1", ["a", "b"])]
      "s1" "minmax" = .error (.missingColumns "s1" ["b"]) :=
  ⟨rfl, rfl⟩

/-- C1, amended: a validation failure of a stage's table is fatal in
`preprocess_single` — the `ValueError` of `validate_schema` propagates
uncaught, the run of the stage aborts, and the subsequent transform steps
(`add_time_features`, `normalize_features`) are never applied. -/
theorem c1_validation_failure_aborts_stage (df : DF)
    (schemas : List (String × List String)) (stage method : String)
    (e : PErr) (h : validate_schema df schemas stage = .error e) :
    preprocess_single df schemas stage method = .error e := by
  unfold preprocess_single
  rw [h]
  rfl

/-- C1 witness: the amended theorem applied to a concrete stage table
whose only column is entirely null. -/
theorem c1_validation_failure_aborts_stage_witness :
    validate_schema ⟨[("a", ColData.num [none])]⟩ [("s1", ["a"])] "s1"
      = .error (.emptyColumns "s1" ["a"]) ∧
    preprocess_single ⟨[("a", ColData.num [none])]⟩ [("s1", ["a"])]
      "s1" "minmax" = .error (.emptyColumns "s1" ["a"]) :=
  ⟨rfl, c1_validation_failure_aborts_stage _ _ _ _ _ rfl⟩

/-! ### Claim C9

The loader-level `validate` runs `pd.to_datetime(df["timestamp"])` inside
a `try` whose `except` also swallows the `KeyError` of a missing
`timestamp` column, so a table without `timestamp` can never validate.
The claim's exact message is, however, only produced when no column of
the table is entirely empty: an undeclared all-null column still triggers
the earlier "Empty columns" failure. -/

/-- C9, counterexample to the claim as stated: a table without a
`timestamp` column whose declared field "a" is present and non-null, but
which carries an undeclared all-null column; `validate` reports the empty
column, not "Timestamp parse error". -/
theorem c9_counterexample_empty_column_message :
    DF.hasCol ⟨[("a", ColData.num [some 1]), ("extra", ColData.num [none])]⟩
      "timestamp" = false ∧
    DF.hasCol ⟨[("a", ColData.num [some 1]), ("extra", ColData.num [none])]⟩
      "a" = true ∧
    emptyColNames ⟨[("a", ColData.num [some 1]), ("extra", ColData.num [none])]⟩
      = ["extra"] ∧
    validate ⟨[("a", ColData.num [some 1]), ("extra", ColData.num [none])]⟩
      ["a"] = (false, "Empty columns: extra") := by
  refine ⟨rfl, rfl, rfl, rfl⟩

/-- C9, amended: for every table lacking a `timestamp` column, `validate`
can never succeed (its boolean is always false), and it returns exactly
(false, "Timestamp parse error") provided every schema-declared field is
present and no column of the table (declared or not) is entirely empty. -/
theorem c9_validate_requires_timestamp (df : DF) (fields : List String)
    (hts : df.hasCol "timestamp" = false) :
    (validate df fields).1 = false ∧
    (fields.filter (fun c => ¬ df.hasCol c) = [] → emptyColNames df = [] →
      validate df fields = (false, "Timestamp parse error")) := by
  have hnone : df.getCol "timestamp" = none := hasCol_false_getCol hts
  have hpar : tsParseOK df = false := by
    unfold tsParseOK
    rw [hnone]
  constructor
  · unfold validate
    simp only [hpar]
    split_ifs <;> simp_all
  · intro hm he
    unfold validate
    simp only [hm, he, hpar]
    simp

/-- C9 witness: the amended theorem applied to a concrete
timestamp-less table with its declared field present and non-empty. -/
theorem c9_validate_requires_timestamp_witness :
    DF.hasCol ⟨[("a", ColData.num [some 1])]⟩ "timestamp" = false ∧
    (validate ⟨[("a", ColData.num [some 1])]⟩ ["a"]).1 = false ∧
    validate ⟨[("a", ColData.num [some 1])]⟩ ["a"]
      = (false, "Timestamp parse error") := by
  refine ⟨by decide, (c9_validate_requires_timestamp _ ["a"] (by decide)).1,
    (c9_validate_requires_timestamp _ ["a"] (by decide)).2 (by decide) (by decide)⟩

/-! ### Claim C6: error cases of `normalize_features` -/

/-- C6: `normalize_features` fails with the no-numeric-columns error
precisely when the table has no numeric column (checked before the method
string), fails with the unsupported-method error precisely when a numeric
column exists and the method is neither "minmax" nor "standard", and in
every other case succeeds with a scaled table and a fitted scaler. -/
theorem c6_normalize_error_cases (df : DF) (method : String) :
    (normalize_features df method = .error .noNumericColumns ↔
      ∀ p ∈ df.cols, p.2.isNumeric = false) ∧
    (normalize_features df method = .error (.unsupportedMethod method) ↔
      (∃ p ∈ df.cols, p.2.isNumeric = true) ∧
        method ≠ "minmax" ∧ method ≠ "standard") ∧
    ((∃ p ∈ df.cols, p.2.isNumeric = true) →
      (method = "minmax" ∨ method = "standard") →
      ∃ out scaler, normalize_features df method = .ok (out, scaler)) := by
  by_cases hall : df.cols.all (fun p => p.2.isNumeric = false)
  · have hforall : ∀ p ∈ df.cols, p.2.isNumeric = false := by
      simpa using hall
    have hne : ¬ ∃ p ∈ df.cols, p.2.isNumeric = true := by
      rintro ⟨p, hp, hnum⟩
      rw [hforall p hp] at hnum
      cases hnum
    unfold normalize_features
    rw [if_pos hall]
    exact ⟨iff_of_true rfl hforall,
      iff_of_false (by simp) (fun h => hne h.1),
      fun hex _ => absurd hex hne⟩
  · have hex : ∃ p ∈ df.cols, p.2.isNumeric = true := by
      by_contra hne
      apply hall
      rw [List.all_eq_true]
      intro p hp
      cases hb : p.2.isNumeric
      · simp
      · exact absurd ⟨p, hp, hb⟩ hne
    have hnfa : ¬ ∀ p ∈ df.cols, p.2.isNumeric = false := by
      intro hfa
      rcases hex with ⟨p, hp, hb⟩
      rw [hfa p hp] at hb
      cases hb
    unfold normalize_features
    rw [if_neg hall]
    by_cases m1 : method = "minmax"
    · rw [if_pos m1]
      exact ⟨iff_of_false (by simp) hnfa,
        iff_of_false (by simp) (fun h => h.2.1 m1),
        fun _ _ => ⟨_, _, rfl⟩⟩
    · rw [if_neg m1]
      by_cases m2 : method = "standard"
      · rw [if_pos m2]
        exact ⟨iff_of_false (by simp) hnfa,
          iff_of_false (by simp) (fun h => h.2.2 m2),
          fun _ _ => ⟨_, _, rfl⟩⟩
      · rw [if_neg m2]
        refine ⟨iff_of_false (by simp) hnfa,
          iff_of_true rfl ⟨hex, m1, m2⟩, fun _ hm => ?_⟩
        rcases hm with m | m
        · exact absurd m m1
        · exact absurd m m2

/-- C6 witness: concrete success and failure instances of the theorem. -/
theorem c6_normalize_error_cases_witness :
    (∃ out scaler, normalize_features ⟨[("a", ColData.num [some 1])]⟩ "minmax"
      = .ok (out, scaler)) ∧
    (normalize_features ⟨[("a", ColData.num [some 1])]⟩ "robust"
      = .error (.unsupportedMethod "robust")) ∧
    (normalize_features ⟨[("s", ColData.str [some "x"])]⟩ "minmax"
      = .error .noNumericColumns) :=
  ⟨(c6_normalize_error_cases ⟨[("a", ColData.num [some 1])]⟩ "minmax").2.2
      ⟨("a", ColData.num [some 1]), List.mem_singleton.2 rfl, rfl⟩ (Or.inl rfl),
    (c6_normalize_error_cases ⟨[("a", ColData.num [some 1])]⟩ "robust").2.1.2
      ⟨⟨("a", ColData.num [some 1]), List.mem_singleton.2 rfl, rfl⟩,
        by decide, by decide⟩,
    (c6_normalize_error_cases ⟨[("s", ColData.str [some "x"])]⟩ "minmax").1.2
      (by rintro p hp
          rcases List.mem_singleton.1 hp with rfl
          rfl)⟩

/-! ### Claim C10: every transform preserves the row count -/

theorem rview_length {c : ColData} {rv : List (Option ℝ)}
    (h : c.rview = some rv) : rv.length = c.length := by
  cases c with
  | num vs =>
    simp only [ColData.rview, Option.some.injEq] at h
    subst h
    simp [ColData.length]
  | rnum vs =>
    simp only [ColData.rview, Option.some.injEq] at h
    subst h
    rfl
  | str vs => cases h
  | dt vs => cases h
  | boolean vs => cases h

theorem clipOne_ok {df : DF} {col : String} {lo hi : ℚ}
    (hw : df.WellFormed) :
    ∀ o, clipOne df col lo hi = .ok o → o.nRows = df.nRows ∧ o.WellFormed := by
  have step : ∀ (d : ColData), d.length = df.nRows →
      (df.setCol col d).nRows = df.nRows ∧ (df.setCol col d).WellFormed :=
    fun d hd => ⟨nRows_setCol df col d hd, WellFormed_setCol hw hd⟩
  intro o ho
  unfold clipOne at ho
  split at ho
  · cases ho
    exact ⟨rfl, hw⟩
  · rename_i vs heq
    have hlen : (ColData.num vs).length = df.nRows := hw _ (getCol_mem heq)
    split at ho
    · cases ho
      exact step _ (by simpa [ColData.length, clipCellsQ] using hlen)
    · cases ho
  · rename_i vs heq
    have hlen : (ColData.rnum vs).length = df.nRows := hw _ (getCol_mem heq)
    split at ho
    · cases ho
      exact step _ (by simpa [ColData.length, clipCellsR] using hlen)
    · cases ho
  · rename_i bs heq
    have hlen : (ColData.boolean bs).length = df.nRows := hw _ (getCol_mem heq)
    split at ho
    · cases ho
      exact step _ (by simpa [ColData.length, clipCellsQ] using hlen)
    · cases ho
  · cases ho

theorem clipFold_ok {lo hi : ℚ} :
    ∀ (names : List String) (df : DF), df.WellFormed →
    ∀ o, names.foldlM (fun acc col => clipOne acc col lo hi) df = .ok o →
      o.nRows = df.nRows ∧ o.WellFormed := by
  intro names
  induction names with
  | nil =>
    intro df hw o ho
    cases ho
    exact ⟨rfl, hw⟩
  | cons n rest ih =>
    intro df hw o ho
    rw [List.foldlM_cons] at ho
    cases hstep : clipOne df n lo hi with
    | error e =>
      rw [hstep] at ho
      cases ho
    | ok acc =>
      rw [hstep] at ho
      have h1 := clipOne_ok hw acc hstep
      have h2 := ih acc h1.2 o ho
      exact ⟨h2.1.trans h1.1, h2.2⟩

/-- C10: on every well-formed table, each transform that succeeds returns
a table with exactly as many rows as its input: `add_time_features`,
`fill_missing_values`, `normalize_features`, `detect_anomalies`,
`clip_outliers` and `create_kpis` only add, fill or rescale columns and
never insert or delete rows. -/
theorem c10_transforms_preserve_row_count (df : DF) (hw : df.WellFormed)
    (ts strat method : String) (columns : List String) (lo hi t : ℚ) :
    (∀ o, add_time_features df ts = .ok o → o.nRows = df.nRows) ∧
    (∀ o, fill_missing_values df strat = .ok o → o.nRows = df.nRows) ∧
    (∀ o s, normalize_features df method = .ok (o, s) → o.nRows = df.nRows) ∧
    (detect_anomalies df t).nRows = df.nRows ∧
    (∀ o, clip_outliers df columns lo hi = .ok o → o.nRows = df.nRows) ∧
    (∀ o, create_kpis df = .ok o → o.nRows = df.nRows) := by
  have hstep : ∀ (d : DF) (n : String) (c : ColData), d.nRows = df.nRows →
      c.length = df.nRows → (d.setCol n c).nRows = df.nRows := by
    intro d n c hdn hc
    rw [nRows_setCol d n c (by rw [hc, hdn])]
    exact hdn
  refine ⟨?_, ?_, ?_, ?_, ?_, ?_⟩
  · -- add_time_features
    intro o ho
    unfold add_time_features at ho
    split at ho
    · cases ho
    · rename_i cd hcol
      cases ho
      have hlen : cd.length = df.nRows := hw (ts, cd) (getCol_mem hcol)
      have hdts : (toDTList cd).length = df.nRows := by
        rw [toDTList_length]; exact hlen
      have hmap : ∀ (f : DateTime → ℚ),
          (ColData.num ((toDTList cd).map (Option.map f))).length = df.nRows := by
        intro f
        simpa [ColData.length] using hdts
      exact hstep _ _ _ (hstep _ _ _ (hstep _ _ _ (hstep _ _ _
        (hstep df ts _ rfl (by simpa [ColData.length] using hdts))
        (hmap _)) (hmap _)) (hmap _)) (hmap _)
  · -- fill_missing_values
    intro o ho
    unfold fill_missing_values at ho
    split_ifs at ho
    · cases ho; rfl
    · cases ho; exact nRows_mapVals df _ (fillColData_length _ _)
    · cases ho; exact nRows_mapVals df _ (fillColData_length _ _)
    · cases ho; exact nRows_mapVals df _ (fillColData_length _ _)
  · -- normalize_features
    intro o s ho
    unfold normalize_features at ho
    split_ifs at ho
    · cases ho
      exact nRows_mapVals df _ minmaxColData_length
    · cases ho
      exact nRows_mapVals df _ stdColData_length
  · -- detect_anomalies
    unfold detect_anomalies
    split
    · exact nRows_setCol df _ _ (by simp [ColData.length])
    · exact nRows_setCol df _ _ (by simp [ColData.length])
  · -- clip_outliers
    intro o ho
    unfold clip_outliers at ho
    split_ifs at ho
    exact (clipFold_ok columns df hw o ho).1
  · -- create_kpis
    intro o ho
    unfold create_kpis at ho
    split_ifs at ho with hboth
    · split at ho
      · rename_i power throughput hp hq
        cases ho
        rcases Option.bind_eq_some.1 hp with ⟨cp, hcp, hvp⟩
        rcases Option.bind_eq_some.1 hq with ⟨cq, hcq, hvq⟩
        have hlp : power.length = df.nRows :=
          (rview_length hvp).trans (hw _ (getCol_mem hcp))
        have hlq : throughput.length = df.nRows :=
          (rview_length hvq).trans (hw _ (getCol_mem hcq))
        refine nRows_setCol df _ _ ?_
        simp only [ColData.length, spcCells_length, hlp, hlq, min_self]
      · cases ho
    · cases ho
      rfl

/-- C10 witness: the theorem applied to a concrete two-column table. -/
theorem c10_transforms_preserve_row_count_witness :
    DF.WellFormed ⟨[("timestamp", ColData.str [some "x"]),
      ("a", ColData.num [some 1])]⟩ ∧
    ((∀ o, add_time_features ⟨[("timestamp", ColData.str [some "x"]),
        ("a", ColData.num [some 1])]⟩ "timestamp" = .ok o →
        o.nRows = DF.nRows ⟨[("timestamp", ColData.str [some "x"]),
          ("a", ColData.num [some 1])]⟩) ∧
      (∀ o, fill_missing_values ⟨[("timestamp", ColData.str [some "x"]),
        ("a", ColData.num [some 1])]⟩ "mean" = .ok o →
        o.nRows = DF.nRows ⟨[("timestamp", ColData.str [some "x"]),
          ("a", ColData.num [some 1])]⟩) ∧
      (∀ o s, normalize_features ⟨[("timestamp", ColData.str [some "x"]),
        ("a", ColData.num [some 1])]⟩ "minmax" = .ok (o, s) →
        o.nRows = DF.nRows ⟨[("timestamp", ColData.str [some "x"]),
          ("a", ColData.num [some 1])]⟩) ∧
      (detect_anomalies ⟨[("timestamp", ColData.str [some "x"]),
        ("a", ColData.num [some 1])]⟩ 3).nRows =
        DF.nRows ⟨[("timestamp", ColData.str [some "x"]),
          ("a", ColData.num [some 1])]⟩ ∧
      (∀ o, clip_outliers ⟨[("timestamp", ColData.str [some "x"]),
        ("a", ColData.num [some 1])]⟩ ["a"] 1 99 = .ok o →
        o.nRows = DF.nRows ⟨[("timestamp", ColData.str [some "x"]),
          ("a", ColData.num [some 1])]⟩) ∧
      (∀ o, create_kpis ⟨[("timestamp", ColData.str [some "x"]),
        ("a", ColData.num [some 1])]⟩ = .ok o →
        o.nRows = DF.nRows ⟨[("timestamp", ColData.str [some "x"]),
          ("a", ColData.num [some 1])]⟩)) :=
  ⟨by decide,
    c10_transforms_preserve_row_count _ (by decide) "timestamp" "mean" "minmax"
      ["a"] 1 99 3⟩

/-! ### Claim C2: `fill_missing_values` leaves no nulls in numeric columns

The claim fails on an all-null numeric column under "mean"/"median": the
column's statistic is itself NaN and `fillna(NaN)` fills nothing. -/

theorem rview_eq_none {c : ColData} (h : c.isNumeric = false) :
    c.rview = none := by
  cases c <;> simp_all [ColData.isNumeric, ColData.rview]

theorem reduceOption_ne_nil {α : Type} {vs : List (Option α)}
    (h : vs.all Option.isNone = false) : vs.reduceOption ≠ [] := by
  induction vs with
  | nil => simp at h
  | cons c rest ih =>
    cases c with
    | none =>
      simp only [List.all_cons, Option.isNone_none, Bool.true_and] at h
      simpa [List.reduceOption_cons_of_none] using ih h
    | some v => simp [List.reduceOption_cons_of_some]

theorem fillCol_isSome {α : Type} {stat : List (Option α) → Option α}
    {vs : List (Option α)} (h : (stat vs).isSome) :
    ∀ x ∈ fillCol stat vs, x.isSome := by
  unfold fillCol
  cases hs : stat vs with
  | none => rw [hs] at h; cases h
  | some μ =>
    intro x hx
    rcases List.mem_map.1 hx with ⟨y, _, rfl⟩
    rfl

theorem meanQ_isSome {vs : List (Option ℚ)} (h : vs.reduceOption ≠ []) :
    (meanQ vs).isSome := by
  unfold meanQ
  rw [if_neg (by simpa [List.isEmpty_iff] using h)]
  rfl

theorem medianQ_isSome {vs : List (Option ℚ)} (h : vs.reduceOption ≠ []) :
    (medianQ vs).isSome := by
  unfold medianQ
  have hlen : (vs.reduceOption.mergeSort (fun a b => decide (a ≤ b))).length ≠ 0 := by
    rw [List.length_mergeSort]
    simpa [List.length_eq_zero] using h
  rw [if_neg (by simpa using hlen)]
  split_ifs <;> rfl

theorem meanROpt_isSome {vs : List (Option ℝ)} (h : vs.reduceOption ≠ []) :
    (meanROpt vs).isSome := by
  unfold meanROpt
  rw [if_neg (by simpa [List.isEmpty_iff] using h)]
  rfl

theorem medianR_isSome {vs : List (Option ℝ)} (h : vs.reduceOption ≠ []) :
    (medianR vs).isSome := by
  unfold medianR
  have hlen : (vs.reduceOption.mergeSort
      (fun a b => if a ≤ b then true else false)).length ≠ 0 := by
    rw [List.length_mergeSort]
    simpa [List.length_eq_zero] using h
  rw [if_neg (by simpa using hlen)]
  split_ifs <;> rfl

theorem getCol_fillNumeric (statQ : List (Option ℚ) → Option ℚ)
    (statR : List (Option ℝ) → Option ℝ) (df : DF) (n : String) :
    (fillNumeric statQ statR df).getCol n =
      (df.getCol n).map (fillColData statQ statR) :=
  getCol_mapVals df _ n

theorem fillNumeric_no_null {statQ : List (Option ℚ) → Option ℚ}
    {statR : List (Option ℝ) → Option ℝ} {df : DF}
    (hQ : ∀ (p : String × ColData) (vs : List (Option ℚ)), p ∈ df.cols →
      p.2 = .num vs → (statQ vs).isSome)
    (hR : ∀ (p : String × ColData) (vs : List (Option ℝ)), p ∈ df.cols →
      p.2 = .rnum vs → (statR vs).isSome) :
    ∀ p ∈ (fillNumeric statQ statR df).cols, ∀ rv, p.2.rview = some rv →
      ∀ x ∈ rv, x.isSome := by
  intro p hp rv hrv x hx
  unfold fillNumeric at hp
  rcases List.mem_map.1 hp with ⟨q, hq, rfl⟩
  cases hc : q.2 with
  | num vs =>
    rw [hc] at hrv
    simp only [fillColData, ColData.rview, Option.some.injEq] at hrv
    subst hrv
    rcases List.mem_map.1 hx with ⟨y, hy, rfl⟩
    have hys := fillCol_isSome (hQ q vs hq hc) y hy
    cases y with
    | none => cases hys
    | some v => rfl
  | rnum vs =>
    rw [hc] at hrv
    simp only [fillColData, ColData.rview, Option.some.injEq] at hrv
    subst hrv
    exact fillCol_isSome (hR q vs hq hc) x hx
  | str vs => rw [hc] at hrv; cases hrv
  | dt vs => rw [hc] at hrv; cases hrv
  | boolean vs => rw [hc] at hrv; cases hrv

/-- C2, counterexample to the claim as stated: on a table whose numeric
column "a" is entirely null, `fill_missing_values` with strategy "mean"
returns the table unchanged — the null cell survives in a numeric
column. -/
theorem c2_counterexample_all_null_column :
    fill_missing_values ⟨[("a", ColData.num [none])]⟩ "mean"
      = .ok ⟨[("a", ColData.num [none])]⟩ ∧
    (ColData.num [none]).isNumeric = true ∧
    (ColData.num [none]).rview = some [none] := by
  exact ⟨rfl, rfl, rfl⟩

/-- C2, amended: for strategies "mean", "median" and "zero",
`fill_missing_values` returns every non-numeric column unchanged and
fills the nulls of each numeric column independently, applying one fixed
per-column function to that column's own cells (never a global
statistic); the resulting numeric columns contain no null cell provided
the strategy is "zero" or every numeric column has at least one non-null
cell (an all-null column keeps its nulls under "mean"/"median"). -/
theorem c2_fill_missing_values_no_nulls (df : DF) (method : String) (out : DF)
    (hok : fill_missing_values df method = .ok out)
    (hnn : method = "zero" ∨
      ∀ p ∈ df.cols, p.2.isNumeric = true → p.2.dropnaEmpty = false) :
    (∀ n c, df.getCol n = some c → c.isNumeric = false →
      out.getCol n = some c) ∧
    (∃ (fQ : List (Option ℚ) → List (Option ℚ))
        (fR : List (Option ℝ) → List (Option ℝ)),
      (∀ n vs, df.getCol n = some (.num vs) →
        out.getCol n = some (.num (fQ vs))) ∧
      (∀ n vs, df.getCol n = some (.rnum vs) →
        out.getCol n = some (.rnum (fR vs)))) ∧
    (∀ p ∈ out.cols, ∀ rv, p.2.rview = some rv → ∀ x ∈ rv, x.isSome) := by
  have main : ∀ (statQ : List (Option ℚ) → Option ℚ)
      (statR : List (Option ℝ) → Option ℝ),
      out = fillNumeric statQ statR df →
      (∀ (p : String × ColData) (vs : List (Option ℚ)), p ∈ df.cols →
        p.2 = .num vs → (statQ vs).isSome) →
      (∀ (p : String × ColData) (vs : List (Option ℝ)), p ∈ df.cols →
        p.2 = .rnum vs → (statR vs).isSome) →
      (∀ n c, df.getCol n = some c → c.isNumeric = false →
        out.getCol n = some c) ∧
      (∃ (fQ : List (Option ℚ) → List (Option ℚ))
          (fR : List (Option ℝ) → List (Option ℝ)),
        (∀ n vs, df.getCol n = some (.num vs) →
          out.getCol n = some (.num (fQ vs))) ∧
        (∀ n vs, df.getCol n = some (.rnum vs) →
          out.getCol n = some (.rnum (fR vs)))) ∧
      (∀ p ∈ out.cols, ∀ rv, p.2.rview = some rv → ∀ x ∈ rv, x.isSome) := by
    intro statQ statR hout hQ hR
    subst hout
    refine ⟨?_, ⟨fillCol statQ, fillCol statR, ?_, ?_⟩, ?_⟩
    · intro n c hc hnum
      rw [getCol_fillNumeric, hc]
      cases c <;> simp_all [fillColData, ColData.isNumeric]
    · intro n vs hc
      rw [getCol_fillNumeric, hc]
      rfl
    · intro n vs hc
      rw [getCol_fillNumeric, hc]
      rfl
    · exact fillNumeric_no_null hQ hR
  unfold fill_missing_values at hok
  split_ifs at hok with h0 h1 h2 h3
  · -- no numeric columns: table returned unchanged
    cases hok
    have hall : ∀ p ∈ df.cols, p.2.isNumeric = false := by simpa using h0
    refine ⟨fun n c hc _ => hc, ⟨id, id, ?_, ?_⟩, ?_⟩
    · intro n vs hc
      have := hall _ (getCol_mem hc)
      cases this
    · intro n vs hc
      have := hall _ (getCol_mem hc)
      cases this
    · intro p hp rv hrv
      rw [rview_eq_none (hall p hp)] at hrv
      cases hrv
  · -- mean
    cases hok
    have hn : ∀ p ∈ df.cols, p.2.isNumeric = true → p.2.dropnaEmpty = false := by
      rcases hnn with hz | hn
      · exact absurd (hz.symm.trans h1) (by decide)
      · exact hn
    refine main meanQ meanROpt rfl ?_ ?_
    · intro p vs hp hpv
      refine meanQ_isSome (reduceOption_ne_nil ?_)
      have := hn p hp (by rw [hpv]; rfl)
      rw [hpv] at this
      exact this
    · intro p vs hp hpv
      refine meanROpt_isSome (reduceOption_ne_nil ?_)
      have := hn p hp (by rw [hpv]; rfl)
      rw [hpv] at this
      exact this
  · -- median
    cases hok
    have hn : ∀ p ∈ df.cols, p.2.isNumeric = true → p.2.dropnaEmpty = false := by
      rcases hnn with hz | hn
      · exact absurd (hz.symm.trans h2) (by decide)
      · exact hn
    refine main medianQ medianR rfl ?_ ?_
    · intro p vs hp hpv
      refine medianQ_isSome (reduceOption_ne_nil ?_)
      have := hn p hp (by rw [hpv]; rfl)
      rw [hpv] at this
      exact this
    · intro p vs hp hpv
      refine medianR_isSome (reduceOption_ne_nil ?_)
      have := hn p hp (by rw [hpv]; rfl)
      rw [hpv] at this
      exact this
  · -- zero: the constant statistic is always defined, so no hypothesis
    -- about all-null columns is needed
    cases hok
    exact main (fun _ => some 0) (fun _ => some 0) rfl
      (fun _ _ _ _ => rfl) (fun _ _ _ _ => rfl)

/-- C2 witness: the amended theorem applied with strategy "mean" to a
table with one numeric column holding a null and one string column; the
filled numeric column has no null left. -/
theorem c2_fill_missing_values_no_nulls_witness :
    (∀ n c, DF.getCol ⟨[("a", ColData.num [some 1, none]),
        ("s", ColData.str [some "x", none])]⟩ n = some c →
      c.isNumeric = false →
      (fillNumeric meanQ meanROpt ⟨[("a", ColData.num [some 1, none]),
        ("s", ColData.str [some "x", none])]⟩).getCol n = some c) ∧
    (∃ (fQ : List (Option ℚ) → List (Option ℚ))
        (fR : List (Option ℝ) → List (Option ℝ)),
      (∀ n vs, DF.getCol ⟨[("a", ColData.num [some 1, none]),
          ("s", ColData.str [some "x", none])]⟩ n = some (.num vs) →
        (fillNumeric meanQ meanROpt ⟨[("a", ColData.num [some 1, none]),
          ("s", ColData.str [some "x", none])]⟩).getCol n = some (.num (fQ vs))) ∧
      (∀ n vs, DF.getCol ⟨[("a", ColData.num [some 1, none]),
          ("s", ColData.str [some "x", none])]⟩ n = some (.rnum vs) →
        (fillNumeric meanQ meanROpt ⟨[("a", ColData.num [some 1, none]),
          ("s", ColData.str [some "x", none])]⟩).getCol n = some (.rnum (fR vs)))) ∧
    (∀ p ∈ (fillNumeric meanQ meanROpt ⟨[("a", ColData.num [some 1, none]),
        ("s", ColData.str [some "x", none])]⟩).cols,
      ∀ rv, p.2.rview = some rv → ∀ x ∈ rv, x.isSome) :=
  c2_fill_missing_values_no_nulls
    ⟨[("a", ColData.num [some 1, none]), ("s", ColData.str [some "x", none])]⟩
    "mean" _ rfl (Or.inr (by decide))

/-! ### Claim C5: `add_time_features` -/

theorem daysInMonth_le_31 (y m : ℕ) : daysInMonth y m ≤ 31 := by
  unfold daysInMonth
  split_ifs <;> omega

theorem parseDate_valid {s : String} {y m d : ℕ}
    (h : parseDate s = some (y, m, d)) :
    1 ≤ m ∧ m ≤ 12 ∧ 1 ≤ d ∧ d ≤ 31 := by
  unfold parseDate at h
  split at h
  · split at h
    · split_ifs at h with hg
      simp only [Option.some.injEq, Prod.mk.injEq] at h
      obtain ⟨rfl, rfl, rfl⟩ := h
      exact ⟨hg.1, hg.2.1, hg.2.2.1,
        le_trans hg.2.2.2 (daysInMonth_le_31 _ _)⟩
    · cases h
  · cases h

theorem parseTime_valid {s : String} {h m sec : ℕ}
    (hp : parseTime s = some (h, m, sec)) :
    h ≤ 23 ∧ m ≤ 59 ∧ sec ≤ 59 := by
  unfold parseTime at hp
  split at hp
  · split at hp
    · split_ifs at hp with hg
      simp only [Option.some.injEq, Prod.mk.injEq] at hp
      obtain ⟨rfl, rfl, rfl⟩ := hp
      exact hg
    · cases hp
  · split at hp
    · split_ifs at hp with hg
      simp only [Option.some.injEq, Prod.mk.injEq] at hp
      obtain ⟨rfl, rfl, rfl⟩ := hp
      exact ⟨hg.1, hg.2, by omega⟩
    · cases hp
  · cases hp

theorem weekday_le_6 (dt : DateTime) : dt.weekday ≤ 6 := by
  exact Nat.le_of_lt_succ (Nat.mod_lt _ (by omega))

theorem parseTS_valid {s : String} {dt : DateTime} (h : parseTS s = some dt) :
    dt.hour ≤ 23 ∧ 1 ≤ dt.day ∧ dt.day ≤ 31 ∧ 1 ≤ dt.month ∧ dt.month ≤ 12 := by
  unfold parseTS at h
  split at h
  · rcases Option.map_eq_some'.1 h with ⟨⟨y, m, dd⟩, hp, rfl⟩
    have hv := parseDate_valid hp
    exact ⟨Nat.zero_le 23, hv.2.2.1, hv.2.2.2, hv.1, hv.2.1⟩
  · split at h
    · rename_i yr hm hd ht
      rcases yr with ⟨y, m, dd⟩
      simp only [Option.some.injEq] at h
      subst h
      have hv := parseDate_valid hd
      exact ⟨(parseTime_valid ht).1, hv.2.2.1, hv.2.2.2, hv.1, hv.2.1⟩
    · cases h
  · cases h

theorem getD_map_none {α β : Type} (g : Option α → Option β)
    (hg : g none = none) (l : List (Option α)) (i : ℕ) :
    (l.map g).getD i none = g (l.getD i none) := by
  induction l generalizing i with
  | nil => simp [hg]
  | cons c rest ih =>
    cases i with
    | zero => simp
    | succ j => simpa using ih j

/-- C5: when the timestamp column is absent, `add_time_features` fails
with the missing-column error; when it is present (a string column of raw
timestamps), the call succeeds, every row whose timestamp parses gets
integer `hour` in [0,23], `day` in [1,31], `weekday` in [0,6] and `month`
in [1,12], every row whose timestamp does not parse gets null in all four
derived columns while staying in the table (the derived columns have
exactly one cell per input row), and all other columns are untouched. -/
theorem c5_add_time_features_ranges (df : DF) :
    (df.getCol "timestamp" = none →
      add_time_features df = .error (.missingColumn "timestamp")) ∧
    (∀ ss, df.getCol "timestamp" = some (.str ss) →
      ∃ out, add_time_features df = .ok out ∧
        ∃ hs ds ws ms : List (Option ℚ),
          out.getCol "hour" = some (.num hs) ∧
          out.getCol "day" = some (.num ds) ∧
          out.getCol "weekday" = some (.num ws) ∧
          out.getCol "month" = some (.num ms) ∧
          hs.length = ss.length ∧ ds.length = ss.length ∧
          ws.length = ss.length ∧ ms.length = ss.length ∧
          (∀ n, n ≠ "timestamp" → n ≠ "hour" → n ≠ "day" → n ≠ "weekday" →
            n ≠ "month" → out.getCol n = df.getCol n) ∧
          (∀ i dt, (ss.getD i none).bind parseTS = some dt →
            hs.getD i none = some (dt.hour : ℚ) ∧ dt.hour ≤ 23 ∧
            ds.getD i none = some (dt.day : ℚ) ∧ 1 ≤ dt.day ∧ dt.day ≤ 31 ∧
            ws.getD i none = some (dt.weekday : ℚ) ∧ dt.weekday ≤ 6 ∧
            ms.getD i none = some (dt.month : ℚ) ∧ 1 ≤ dt.month ∧ dt.month ≤ 12) ∧
          (∀ i, (ss.getD i none).bind parseTS = none →
            hs.getD i none = none ∧ ds.getD i none = none ∧
            ws.getD i none = none ∧ ms.getD i none = none)) := by
  constructor
  · intro h
    unfold add_time_features
    rw [h]
  · intro ss hts
    unfold add_time_features
    rw [hts]
    refine ⟨_, rfl, ?_⟩
    have hparsed : toDTList (.str ss) = ss.map (fun s? => s?.bind parseTS) := rfl
    refine ⟨(toDTList (.str ss)).map (Option.map (fun d => (d.hour : ℚ))),
      (toDTList (.str ss)).map (Option.map (fun d => (d.day : ℚ))),
      (toDTList (.str ss)).map (Option.map (fun d => (d.weekday : ℚ))),
      (toDTList (.str ss)).map (Option.map (fun d => (d.month : ℚ))),
      ?_, ?_, ?_, ?_, ?_, ?_, ?_, ?_, ?_, ?_, ?_⟩
    · rw [getCol_setCol_ne _ _ _ _ (by decide),
        getCol_setCol_ne _ _ _ _ (by decide),
        getCol_setCol_ne _ _ _ _ (by decide)]
      exact getCol_setCol_self _ _ _
    · rw [getCol_setCol_ne _ _ _ _ (by decide),
        getCol_setCol_ne _ _ _ _ (by decide)]
      exact getCol_setCol_self _ _ _
    · rw [getCol_setCol_ne _ _ _ _ (by decide)]
      exact getCol_setCol_self _ _ _
    · exact getCol_setCol_self _ _ _
    · simp [toDTList]
    · simp [toDTList]
    · simp [toDTList]
    · simp [toDTList]
    · intro n h1 h2 h3 h4 h5
      rw [getCol_setCol_ne _ _ _ _ h5, getCol_setCol_ne _ _ _ _ h4,
        getCol_setCol_ne _ _ _ _ h3, getCol_setCol_ne _ _ _ _ h2,
        getCol_setCol_ne _ _ _ _ h1]
    · intro i dt hget
      have hrow : (toDTList (.str ss)).getD i none = some dt := by
        rw [hparsed, getD_map_none _ rfl]
        exact hget
      have hvalid : dt.hour ≤ 23 ∧ 1 ≤ dt.day ∧ dt.day ≤ 31 ∧
          1 ≤ dt.month ∧ dt.month ≤ 12 := by
        rcases Option.bind_eq_some.1 hget with ⟨s, _, hps⟩
        exact parseTS_valid hps
      refine ⟨?_, hvalid.1, ?_, hvalid.2.1, hvalid.2.2.1, ?_, weekday_le_6 dt,
        ?_, hvalid.2.2.2.1, hvalid.2.2.2.2⟩ <;>
        rw [getD_map_none _ rfl, hrow] <;> rfl
    · intro i hget
      have hrow : (toDTList (.str ss)).getD i none = none := by
        rw [hparsed, getD_map_none _ rfl]
        exact hget
      refine ⟨?_, ?_, ?_, ?_⟩ <;> rw [getD_map_none _ rfl, hrow] <;> rfl

/-- C5 witness: the theorem applied to a one-column table holding one
parseable and one unparseable timestamp string. -/
theorem c5_add_time_features_ranges_witness :
    ∃ out, add_time_features
        ⟨[("timestamp", ColData.str [some "2025-09-17 23:10:01", some "banana"])]⟩
        = .ok out ∧
      ∃ hs ds ws ms : List (Option ℚ),
        out.getCol "hour" = some (.num hs) ∧
        out.getCol "day" = some (.num ds) ∧
        out.getCol "weekday" = some (.num ws) ∧
        out.getCol "month" = some (.num ms) ∧
        hs.length = 2 ∧ ds.length = 2 ∧ ws.length = 2 ∧ ms.length = 2 ∧
        (∀ n, n ≠ "timestamp" → n ≠ "hour" → n ≠ "day" → n ≠ "weekday" →
          n ≠ "month" → out.getCol n =
            DF.getCol ⟨[("timestamp",
              ColData.str [some "2025-09-17 23:10:01", some "banana"])]⟩ n) ∧
        (∀ i dt, (([some "2025-09-17 23:10:01",
            some "banana"].getD i none)).bind parseTS = some dt →
          hs.getD i none = some (dt.hour : ℚ) ∧ dt.hour ≤ 23 ∧
          ds.getD i none = some (dt.day : ℚ) ∧ 1 ≤ dt.day ∧ dt.day ≤ 31 ∧
          ws.getD i none = some (dt.weekday : ℚ) ∧ dt.weekday ≤ 6 ∧
          ms.getD i none = some (dt.month : ℚ) ∧ 1 ≤ dt.month ∧ dt.month ≤ 12) ∧
        (∀ i, (([some "2025-09-17 23:10:01",
            some "banana"].getD i none)).bind parseTS = none →
          hs.getD i none = none ∧ ds.getD i none = none ∧
          ws.getD i none = none ∧ ms.getD i none = none) :=
  (c5_add_time_features_ranges
    ⟨[("timestamp", ColData.str [some "2025-09-17 23:10:01", some "banana"])]⟩).2
    [some "2025-09-17 23:10:01", some "banana"] rfl

/-! ### Claim C8: `create_kpis` -/

theorem getD_some_lt {α : Type} {l : List (Option α)} {i : ℕ} {x : α}
    (h : l.getD i none = some x) : i < l.length := by
  by_contra hge
  rw [List.getD_eq_default] at h
  · cases h
  · omega

theorem zipWith_getD {α β γ : Type} (f : Option α → Option β → Option γ)
    (l1 : List (Option α)) (l2 : List (Option β)) (i : ℕ)
    (h1 : i < l1.length) (h2 : i < l2.length) :
    (List.zipWith f l1 l2).getD i none = f (l1.getD i none) (l2.getD i none) := by
  induction l1 generalizing l2 i with
  | nil => simp at h1
  | cons a rest ih =>
    cases l2 with
    | nil => simp at h2
    | cons b rest2 =>
      cases i with
      | zero => simp
      | succ j =>
        simp only [List.zipWith_cons_cons, List.getD_cons_succ]
        exact ih rest2 j (by simpa using h1) (by simpa using h2)

/-- C8: when both the power and the throughput column are present (as
numeric columns), `create_kpis` adds a `specific_power_consumption`
column holding the unguarded row-wise quotient power/throughput: on rows
with a non-zero throughput the cell is exactly the quotient, and on rows
with zero throughput the float division produces a non-finite value
(±inf, or NaN for 0/0), recorded by this embedding as a null cell.  In
particular, on mill_power_kwh = [100, 200] and throughput_tph = [50, 50]
the derived column is [2.0, 4.0]. -/
theorem c8_create_kpis_quotient (df : DF) :
    (∀ power throughput pv tv,
      df.getCol "mill_power_kwh" = some power →
      df.getCol "throughput_tph" = some throughput →
      power.rview = some pv → throughput.rview = some tv →
      ∃ out, create_kpis df = .ok out ∧
        out.getCol "specific_power_consumption"
          = some (.rnum (spcCells pv tv)) ∧
        (∀ n, n ≠ "specific_power_consumption" →
          out.getCol n = df.getCol n) ∧
        (∀ i p t, pv.getD i none = some p → tv.getD i none = some t →
          (t ≠ 0 → (spcCells pv tv).getD i none = some (p / t)) ∧
          (t = 0 → (spcCells pv tv).getD i none = none))) ∧
    (∃ out, create_kpis ⟨[("mill_power_kwh", ColData.num [some 100, some 200]),
        ("throughput_tph", ColData.num [some 50, some 50])]⟩ = .ok out ∧
      out.getCol "specific_power_consumption"
        = some (.rnum [some 2, some 4])) := by
  constructor
  · intro power throughput pv tv hp ht hpv htv
    have hx : (df.getCol "mill_power_kwh").bind ColData.rview = some pv := by
      rw [hp]
      exact hpv
    have hy : (df.getCol "throughput_tph").bind ColData.rview = some tv := by
      rw [ht]
      exact htv
    have hok : create_kpis df = .ok
        (df.setCol "specific_power_consumption" (.rnum (spcCells pv tv))) := by
      unfold create_kpis
      rw [if_pos ⟨hasCol_true_iff.2 ⟨power, hp⟩, hasCol_true_iff.2 ⟨throughput, ht⟩⟩,
        hx, hy]
    refine ⟨_, hok, getCol_setCol_self _ _ _,
      fun n hn => getCol_setCol_ne _ _ _ _ hn, ?_⟩
    intro i p t hip hit
    have hi1 : i < pv.length := getD_some_lt hip
    have hi2 : i < tv.length := getD_some_lt hit
    have hcell : (spcCells pv tv).getD i none =
        (if t = 0 then none else some (p / t)) := by
      unfold spcCells
      rw [zipWith_getD _ _ _ _ hi1 hi2, hip, hit]
    constructor
    · intro htz
      rw [hcell, if_neg htz]
    · intro htz
      rw [hcell, if_pos htz]
  · refine ⟨_, rfl, ?_⟩
    have hcells : spcCells [some ((100 : ℚ) : ℝ), some ((200 : ℚ) : ℝ)]
        [some ((50 : ℚ) : ℝ), some ((50 : ℚ) : ℝ)]
        = [some (2 : ℝ), some (4 : ℝ)] := by
      unfold spcCells
      rw [List.zipWith_cons_cons, List.zipWith_cons_cons, List.zipWith_nil_right]
      norm_num
    calc (DF.setCol ⟨[("mill_power_kwh", ColData.num [some 100, some 200]),
            ("throughput_tph", ColData.num [some 50, some 50])]⟩
          "specific_power_consumption"
          (.rnum (spcCells [some ((100 : ℚ) : ℝ), some ((200 : ℚ) : ℝ)]
            [some ((50 : ℚ) : ℝ), some ((50 : ℚ) : ℝ)]))).getCol
          "specific_power_consumption"
        = some (.rnum (spcCells [some ((100 : ℚ) : ℝ), some ((200 : ℚ) : ℝ)]
            [some ((50 : ℚ) : ℝ), some ((50 : ℚ) : ℝ)])) :=
          getCol_setCol_self _ _ _
      _ = some (.rnum [some 2, some 4]) := by rw [hcells]

/-- C8 witness: the quotient part applied to a concrete table that also
has a zero-throughput row. -/
theorem c8_create_kpis_quotient_witness :
    ∃ out, create_kpis ⟨[("mill_power_kwh", ColData.num [some 10, some 7]),
        ("throughput_tph", ColData.num [some 5, some 0])]⟩ = .ok out ∧
      out.getCol "specific_power_consumption"
        = some (.rnum (spcCells [some ((10 : ℚ) : ℝ), some ((7 : ℚ) : ℝ)]
          [some ((5 : ℚ) : ℝ), some ((0 : ℚ) : ℝ)])) ∧
      (∀ n, n ≠ "specific_power_consumption" →
        out.getCol n = DF.getCol ⟨[("mill_power_kwh", ColData.num [some 10, some 7]),
          ("throughput_tph", ColData.num [some 5, some 0])]⟩ n) ∧
      (∀ i p t,
        ([some ((10 : ℚ) : ℝ), some ((7 : ℚ) : ℝ)].getD i none) = some p →
        ([some ((5 : ℚ) : ℝ), some ((0 : ℚ) : ℝ)].getD i none) = some t →
        (t ≠ 0 → (spcCells [some ((10 : ℚ) : ℝ), some ((7 : ℚ) : ℝ)]
          [some ((5 : ℚ) : ℝ), some ((0 : ℚ) : ℝ)]).getD i none = some (p / t)) ∧
        (t = 0 → (spcCells [some ((10 : ℚ) : ℝ), some ((7 : ℚ) : ℝ)]
          [some ((5 : ℚ) : ℝ), some ((0 : ℚ) : ℝ)]).getD i none = none)) :=
  (c8_create_kpis_quotient ⟨[("mill_power_kwh", ColData.num [some 10, some 7]),
      ("throughput_tph", ColData.num [some 5, some 0])]⟩).1
    (ColData.num [some 10, some 7]) (ColData.num [some 5, some 0])
    [some ((10 : ℚ) : ℝ), some ((7 : ℚ) : ℝ)]
    [some ((5 : ℚ) : ℝ), some ((0 : ℚ) : ℝ)] rfl rfl rfl rfl

/-! ### Claim C4: value ranges after `normalize_features` -/

theorem reduceOption_map_optionMap {α β : Type} (f : α → β)
    (l : List (Option α)) :
    (l.map (Option.map f)).reduceOption = l.reduceOption.map f := by
  induction l with
  | nil => rfl
  | cons c rest ih =>
    cases c with
    | none => simp [List.reduceOption_cons_of_none, ih]
    | some v =>
      simp [List.reduceOption_cons_of_some, ih]

theorem mem_reduceOption_of_mem {α : Type} {l : List (Option α)} {x : α}
    (h : some x ∈ l) : x ∈ l.reduceOption := by
  rw [List.reduceOption_mem_iff]
  exact h

theorem foldl_min_le {α : Type} [LinearOrder α] :
    ∀ (l : List α) (x y : α), y = x ∨ y ∈ l → l.foldl min x ≤ y := by
  intro l
  induction l with
  | nil =>
    rintro x y (rfl | hy)
    · exact le_refl y
    · cases hy
  | cons a rest ih =>
    rintro x y (rfl | hy)
    · calc (a :: rest).foldl min y = rest.foldl min (min y a) := rfl
        _ ≤ min y a := ih _ _ (Or.inl rfl)
        _ ≤ y := min_le_left _ _
    · rcases List.mem_cons.1 hy with rfl | hy
      · calc (y :: rest).foldl min x = rest.foldl min (min x y) := rfl
          _ ≤ min x y := ih _ _ (Or.inl rfl)
          _ ≤ y := min_le_right _ _
      · exact ih (min x a) y (Or.inr hy)

theorem le_foldl_max {α : Type} [LinearOrder α] :
    ∀ (l : List α) (x y : α), y = x ∨ y ∈ l → y ≤ l.foldl max x := by
  intro l
  induction l with
  | nil =>
    rintro x y (rfl | hy)
    · exact le_refl y
    · cases hy
  | cons a rest ih =>
    rintro x y (rfl | hy)
    · calc y ≤ max y a := le_max_left _ _
        _ ≤ rest.foldl max (max y a) := ih _ _ (Or.inl rfl)
        _ = (a :: rest).foldl max y := rfl
    · rcases List.mem_cons.1 hy with rfl | hy
      · calc y ≤ max x y := le_max_right _ _
          _ ≤ rest.foldl max (max x y) := ih _ _ (Or.inl rfl)
      · exact ih (max x a) y (Or.inr hy)

theorem colMin_le {α : Type} [LinearOrder α] {vs : List (Option α)} {mn x : α}
    (hmn : colMin vs = some mn) (hx : x ∈ vs.reduceOption) : mn ≤ x := by
  unfold colMin at hmn
  cases hro : vs.reduceOption with
  | nil => rw [hro] at hmn; cases hmn
  | cons a rest =>
    rw [hro] at hmn
    simp only [Option.some.injEq] at hmn
    subst hmn
    rw [hro] at hx
    rcases List.mem_cons.1 hx with rfl | hx
    · exact foldl_min_le rest x x (Or.inl rfl)
    · exact foldl_min_le rest a x (Or.inr hx)

theorem le_colMax {α : Type} [LinearOrder α] {vs : List (Option α)} {mx x : α}
    (hmx : colMax vs = some mx) (hx : x ∈ vs.reduceOption) : x ≤ mx := by
  unfold colMax at hmx
  cases hro : vs.reduceOption with
  | nil => rw [hro] at hmx; cases hmx
  | cons a rest =>
    rw [hro] at hmx
    simp only [Option.some.injEq] at hmx
    subst hmx
    rw [hro] at hx
    rcases List.mem_cons.1 hx with rfl | hx
    · exact le_foldl_max rest x x (Or.inl rfl)
    · exact le_foldl_max rest a x (Or.inr hx)

theorem minmaxCol_bounds {α : Type} [LinearOrderedField α]
    {vs : List (Option α)} :
    ∀ y ∈ minmaxCol vs, ∀ w, y = some w → 0 ≤ w ∧ w ≤ 1 := by
  intro y hy w hw
  subst hw
  unfold minmaxCol at hy
  cases hmn : colMin vs with
  | none =>
    rw [hmn] at hy
    unfold colMin at hmn
    cases hro : vs.reduceOption with
    | cons a rest => rw [hro] at hmn; cases hmn
    | nil =>
      cases hmx : colMax vs <;> rw [hmx] at hy
      · exact absurd (hro ▸ mem_reduceOption_of_mem hy) (List.not_mem_nil _)
      · exact absurd (hro ▸ mem_reduceOption_of_mem hy) (List.not_mem_nil _)
  | some mn =>
    cases hmx : colMax vs with
    | none =>
      rw [hmn, hmx] at hy
      unfold colMax at hmx
      cases hro : vs.reduceOption with
      | cons a rest => rw [hro] at hmx; cases hmx
      | nil => exact absurd (hro ▸ mem_reduceOption_of_mem hy) (List.not_mem_nil _)
    | some mx =>
      rw [hmn, hmx] at hy
      rcases List.mem_map.1 hy with ⟨z, hz, hzw⟩
      cases z with
      | none => cases hzw
      | some u =>
        simp only [Option.map_some', Option.some.injEq] at hzw
        subst hzw
        have hu : u ∈ vs.reduceOption := mem_reduceOption_of_mem hz
        have h1 : mn ≤ u := colMin_le hmn hu
        have h2 : u ≤ mx := le_colMax hmx hu
        split_ifs with h0
        · have hux : u = mn := le_antisymm (by linarith) h1
          rw [hux]
          norm_num
        · have hpos : 0 < mx - mn := lt_of_le_of_ne (by linarith) (Ne.symm h0)
          exact ⟨div_nonneg (by linarith) hpos.le,
            (div_le_one hpos).2 (by linarith)⟩

theorem sum_map_sub_const (l : List ℝ) (c : ℝ) :
    (l.map (fun x => x - c)).sum = l.sum - l.length * c := by
  induction l with
  | nil => simp
  | cons a rest ih =>
    simp only [List.map_cons, List.sum_cons, List.length_cons, ih]
    push_cast
    ring

theorem popVarR_nonneg (vs : List (Option ℝ)) : 0 ≤ popVarR vs := by
  unfold popVarR
  apply div_nonneg
  · apply List.sum_nonneg
    intro x hx
    rcases List.mem_map.1 hx with ⟨y, _, rfl⟩
    positivity
  · positivity

theorem popVarR_eq_zero_of_empty {vs : List (Option ℝ)}
    (h : vs.reduceOption = []) : popVarR vs = 0 := by
  unfold popVarR
  rw [h]
  simp

theorem stdColR_mean_var {vs : List (Option ℝ)} (hv : popVarR vs ≠ 0) :
    meanR (stdColR vs) = 0 ∧ popVarR (stdColR vs) = 1 := by
  have hne : vs.reduceOption ≠ [] := by
    intro h
    exact hv (popVarR_eq_zero_of_empty h)
  have hn : (0 : ℝ) < vs.reduceOption.length := by
    have := List.length_pos.2 hne
    exact_mod_cast this
  set xs := vs.reduceOption with hxs
  set μ := meanR vs with hμ
  set v := popVarR vs with hv0
  have hvpos : 0 < v := lt_of_le_of_ne (popVarR_nonneg vs) (Ne.symm hv)
  set s : ℝ := Real.sqrt v with hs
  have hspos : 0 < s := Real.sqrt_pos.2 hvpos
  have hstd : stdColR vs = vs.map (Option.map (fun x => (x - μ) / s)) := by
    unfold stdColR
    rw [if_neg (by simpa [List.isEmpty_iff] using hne), if_neg hv]
  have hred : (stdColR vs).reduceOption = xs.map (fun x => (x - μ) / s) := by
    rw [hstd, reduceOption_map_optionMap]
  have hsum0 : (xs.map (fun x => x - μ)).sum = 0 := by
    rw [sum_map_sub_const, hμ]
    unfold meanR
    rw [← hxs]
    field_simp
  have hlen : (xs.map (fun x => (x - μ) / s)).length = xs.length := by simp
  have hmean : meanR (stdColR vs) = 0 := by
    unfold meanR
    rw [hred, hlen]
    have hfun1 : (fun x => (x - μ) / s) = (fun x => (x - μ) * s⁻¹) := by
      funext x
      rw [div_eq_mul_inv]
    rw [hfun1, List.sum_map_mul_right, hsum0]
    simp
  refine ⟨hmean, ?_⟩
  unfold popVarR
  rw [hred, hmean, hlen]
  have hS : (xs.map (fun x => (x - μ) ^ 2)).sum = v * xs.length := by
    rw [hv0]
    unfold popVarR
    rw [← hxs, ← hμ]
    field_simp
  have hfun2 : ((fun y => (y - 0) ^ 2) ∘ (fun x => (x - μ) / s))
      = (fun x => (x - μ) ^ 2 * (s ^ 2)⁻¹) := by
    funext x
    show ((x - μ) / s - 0) ^ 2 = (x - μ) ^ 2 * (s ^ 2)⁻¹
    rw [sub_zero, div_pow, div_eq_mul_inv]
  have : ((xs.map (fun x => (x - μ) / s)).map (fun y => (y - 0) ^ 2)).sum
      = (xs.map (fun x => (x - μ) ^ 2)).sum * (s ^ 2)⁻¹ := by
    rw [List.map_map, hfun2, List.sum_map_mul_right]
  rw [this, hS]
  have hss : s ^ 2 = v := Real.sq_sqrt hvpos.le
  rw [hss]
  field_simp

/-- C4, counterexample to the claim as stated: standard-scaling a table
whose numeric column is constant ([5, 5]) yields the column [0, 0], whose
standard deviation is 0, not approximately 1 (sklearn replaces the zero
scale by 1 instead of dividing by it). -/
theorem reduceOption_pair {α : Type} (a b : α) :
    ([some a, some b] : List (Option α)).reduceOption = [a, b] := rfl

theorem c4_counterexample_constant_column :
    ∃ out s rv, normalize_features ⟨[("a", ColData.num [some 5, some 5])]⟩
        "standard" = .ok (out, s) ∧
      out.getCol "a" = some (.rnum rv) ∧
      popVarR rv = 0 ∧ popVarR rv ≠ 1 := by
  have hmean : meanR [some ((5 : ℚ) : ℝ), some ((5 : ℚ) : ℝ)] = 5 := by
    unfold meanR
    rw [reduceOption_pair]
    norm_num
  have hvar : popVarR [some ((5 : ℚ) : ℝ), some ((5 : ℚ) : ℝ)] = 0 := by
    unfold popVarR
    rw [hmean, reduceOption_pair]
    norm_num
  have hstd : stdColR [some ((5 : ℚ) : ℝ), some ((5 : ℚ) : ℝ)]
      = [some 0, some 0] := by
    unfold stdColR
    rw [if_neg (by rw [reduceOption_pair]; simp), hmean, hvar]
    norm_num
  have hvar0 : popVarR [some (0 : ℝ), some (0 : ℝ)] = 0 := by
    have h0 : meanR [some (0 : ℝ), some (0 : ℝ)] = 0 := by
      unfold meanR
      rw [reduceOption_pair]
      norm_num
    unfold popVarR
    rw [h0, reduceOption_pair]
    norm_num
  refine ⟨_, _, stdColR [some ((5 : ℚ) : ℝ), some ((5 : ℚ) : ℝ)], rfl, rfl, ?_, ?_⟩
  · rw [hstd]
    exact hvar0
  · rw [hstd, hvar0]
    norm_num

/-- C4, amended: `normalizeFeatures(table, "minmax")` maps every value of
every numeric column into [0, 1] (a constant column is sent to 0, which
still lies in [0, 1]); `normalizeFeatures(table, "standard")` yields, for
every numeric column of non-zero variance, an output column of mean
exactly 0 and population variance exactly 1 (hence standard deviation 1);
a constant (zero-variance) column is instead sent to 0, with standard
deviation 0, because sklearn replaces a zero scale by 1. -/
theorem c4_normalize_ranges (df : DF) :
    (∀ out s, normalize_features df "minmax" = .ok (out, s) →
      ∀ p ∈ out.cols, ∀ rv, p.2.rview = some rv → ∀ x ∈ rv, ∀ v, x = some v →
        0 ≤ v ∧ v ≤ 1) ∧
    (∀ out s, normalize_features df "standard" = .ok (out, s) →
      ∀ n c rvIn, df.getCol n = some c → c.rview = some rvIn →
        popVarR rvIn ≠ 0 →
        ∃ rvOut, out.getCol n = some (.rnum rvOut) ∧
          meanR rvOut = 0 ∧ popVarR rvOut = 1) := by
  constructor
  · intro out s hok p hp rv hrv x hx v hv
    unfold normalize_features at hok
    by_cases hall : df.cols.all (fun p => p.2.isNumeric = false)
    · rw [if_pos hall] at hok
      cases hok
    · rw [if_neg hall, if_pos rfl] at hok
      cases hok
      rcases List.mem_map.1 hp with ⟨q, _, rfl⟩
      cases hc : q.2 with
      | num vs =>
        rw [hc] at hrv
        simp only [minmaxColData, ColData.rview, Option.some.injEq] at hrv
        subst hrv
        rcases List.mem_map.1 hx with ⟨y, hy, rfl⟩
        cases y with
        | none => cases hv
        | some w =>
          simp only [Option.map_some', Option.some.injEq] at hv
          subst hv
          have := minmaxCol_bounds (some w) hy w rfl
          exact ⟨by exact_mod_cast this.1, by exact_mod_cast this.2⟩
      | rnum vs =>
        rw [hc] at hrv
        simp only [minmaxColData, ColData.rview, Option.some.injEq] at hrv
        subst hrv
        subst hv
        exact minmaxCol_bounds (some v) hx v rfl
      | str vs => rw [hc] at hrv; cases hrv
      | dt vs => rw [hc] at hrv; cases hrv
      | boolean vs => rw [hc] at hrv; cases hrv
  · intro out s hok n c rvIn hc hrc hvar
    unfold normalize_features at hok
    by_cases hall : df.cols.all (fun p => p.2.isNumeric = false)
    · rw [if_pos hall] at hok
      cases hok
    · rw [if_neg hall, if_neg (by decide), if_pos rfl] at hok
      cases hok
      have hgout : (DF.mk (df.cols.map (fun p => (p.1, stdColData p.2)))).getCol n
          = some (stdColData c) := by
        rw [getCol_mapVals, hc]
        rfl
      cases c with
      | num vs =>
        simp only [ColData.rview, Option.some.injEq] at hrc
        refine ⟨stdColR rvIn, ?_, stdColR_mean_var hvar⟩
        rw [hgout]
        simp only [stdColData, hrc]
      | rnum vs =>
        simp only [ColData.rview, Option.some.injEq] at hrc
        refine ⟨stdColR rvIn, ?_, stdColR_mean_var hvar⟩
        rw [hgout]
        simp only [stdColData, hrc]
      | str vs => cases hrc
      | dt vs => cases hrc
      | boolean vs => cases hrc

/-- C4 witness: the min-max half applied to a concrete one-column
table. -/
theorem c4_normalize_ranges_witness :
    ∀ p ∈ (DF.mk [("a", minmaxColData (ColData.num [some 1, some 3]))]).cols,
      ∀ rv, p.2.rview = some rv → ∀ x ∈ rv, ∀ v, x = some v →
        0 ≤ v ∧ v ≤ 1 :=
  (c4_normalize_ranges ⟨[("a", ColData.num [some 1, some 3])]⟩).1
    ⟨[("a", minmaxColData (ColData.num [some 1, some 3]))]⟩
    (.minmax [("a", fitMinmax (ColData.num [some 1, some 3]))]) rfl

/-! ### Claims C3 and C7: `detect_anomalies` -/

theorem svarR_junk_of_short {rv : List (Option ℝ)}
    (h : rv.reduceOption.length ≤ 1) :
    (rv.reduceOption.length : ℝ) - 1 ≤ 0 := by
  have : rv.reduceOption.length = 0 ∨ rv.reduceOption.length = 1 := by omega
  rcases this with h0 | h0 <;> simp [h0]

theorem mem_of_getD_some {α : Type} {l : List (Option α)} {i : ℕ} {x : α}
    (h : l.getD i none = some x) : some x ∈ l := by
  have hi : i < l.length := getD_some_lt h
  rw [List.getD_eq_getElem?_getD, List.getElem?_eq_getElem hi] at h
  simp only [Option.getD_some] at h
  rw [← h]
  exact List.getElem_mem _

/-- On a non-negative threshold, the cell-level anomaly test coincides
with the plain real inequality `t < |(v − mean)/√(sample variance)|`: the
NaN branches of the float code (null cell, fewer than two non-null cells,
zero variance) are exactly the cases where the inequality is false, since
Lean's division by zero yields 0 and `0 ≤ t`. -/
theorem cellFlag_iff {rv : List (Option ℝ)} {t : ℚ} {i : ℕ} (ht : 0 ≤ t) :
    cellFlag rv t i = true ↔
      ∃ v, rv.getD i none = some v ∧
        (t : ℝ) < |(v - meanR rv) / Real.sqrt (svarR rv)| := by
  have htR : (0 : ℝ) ≤ (t : ℝ) := by exact_mod_cast ht
  cases hget : rv.getD i none with
  | none =>
    have hred : cellFlag rv t i = false := by
      unfold cellFlag
      rw [hget]
    rw [hred]
    constructor
    · intro h
      cases h
    · rintro ⟨v, hv, -⟩
      cases hv
  | some v =>
    have hred : cellFlag rv t i =
        (if rv.reduceOption.length ≤ 1 then false
         else if svarR rv = 0 then false
         else if (t : ℝ) < |(v - meanR rv) / Real.sqrt (svarR rv)| then true
         else false) := by
      unfold cellFlag
      rw [hget]
    rw [hred]
    have hmem : v ∈ rv.reduceOption := mem_reduceOption_of_mem (mem_of_getD_some hget)
    have hlenpos : 0 < rv.reduceOption.length := List.length_pos.2 (by
      intro hnil
      rw [hnil] at hmem
      cases hmem)
    split_ifs with h1 h2 h3
    · -- fewer than two non-null cells: sample variance is junk 0
      have hvar : svarR rv = 0 := by
        unfold svarR
        have hlen1 : rv.reduceOption.length = 1 := by omega
        rw [hlen1]
        norm_num
      constructor
      · intro h
        cases h
      · rintro ⟨w, hw, hlt⟩
        obtain rfl : v = w := Option.some.inj hw
        rw [hvar, Real.sqrt_zero, div_zero, abs_zero] at hlt
        exact absurd hlt (not_lt.2 htR)
    · -- zero variance
      constructor
      · intro h
        cases h
      · rintro ⟨w, hw, hlt⟩
        obtain rfl : v = w := Option.some.inj hw
        rw [h2, Real.sqrt_zero, div_zero, abs_zero] at hlt
        exact absurd hlt (not_lt.2 htR)
    · exact iff_of_true rfl ⟨v, rfl, h3⟩
    · constructor
      · intro h
        cases h
      · rintro ⟨w, hw, hlt⟩
        obtain rfl : v = w := Option.some.inj hw
        exact absurd hlt h3

theorem cellFlag_mono {rv : List (Option ℝ)} {t1 t2 : ℚ} {i : ℕ}
    (h : t1 ≤ t2) (hf : cellFlag rv t2 i = true) : cellFlag rv t1 i = true := by
  cases hget : rv.getD i none with
  | none =>
    have hred : cellFlag rv t2 i = false := by
      unfold cellFlag
      rw [hget]
    rw [hred] at hf
    cases hf
  | some v =>
    have hred2 : cellFlag rv t2 i =
        (if rv.reduceOption.length ≤ 1 then false
         else if svarR rv = 0 then false
         else if (t2 : ℝ) < |(v - meanR rv) / Real.sqrt (svarR rv)| then true
         else false) := by
      unfold cellFlag
      rw [hget]
    have hred1 : cellFlag rv t1 i =
        (if rv.reduceOption.length ≤ 1 then false
         else if svarR rv = 0 then false
         else if (t1 : ℝ) < |(v - meanR rv) / Real.sqrt (svarR rv)| then true
         else false) := by
      unfold cellFlag
      rw [hget]
    rw [hred2] at hf
    rw [hred1]
    split_ifs at hf with h1 h2 h3
    rw [if_neg h1, if_neg h2,
      if_pos (lt_of_le_of_lt (show ((t1 : ℚ) : ℝ) ≤ ((t2 : ℚ) : ℝ) by
        exact_mod_cast h) h3)]

theorem getD_range_map {f : ℕ → Bool} {n i : ℕ} (hi : i < n) :
    (((List.range n).map f).getD i false) = f i := by
  rw [List.getD_eq_getElem?_getD, List.getElem?_map, List.getElem?_range hi]
  rfl

theorem getD_replicate_false {n i : ℕ} :
    ((List.replicate n false).getD i false) = false := by
  induction n generalizing i with
  | zero => rfl
  | succ m ih =>
    cases i with
    | zero => rfl
    | succ j => simp [List.replicate_succ, ih]

theorem mem_numViews {df : DF} {rv : List (Option ℝ)} :
    rv ∈ numViews df ↔ ∃ p ∈ df.cols, p.2.rview = some rv := by
  unfold numViews
  rw [List.mem_filterMap]

/-- C3: `detect_anomalies` returns the input table extended with a
boolean `is_anomaly` column, one cell per row, leaving all other columns
unchanged; for a non-negative threshold `t` a row is flagged exactly when
some numeric column holds a non-null value whose z-score magnitude
`|(x − mean)/std|` (mean and sample standard deviation, ddof = 1, of that
column of the input table) exceeds `t`.  In particular a table with no
numeric columns has every row unflagged. -/
theorem c3_detect_anomalies_flags (df : DF) (t : ℚ) (ht : 0 ≤ t) :
    ∃ flags : List Bool,
      (detect_anomalies df t).getCol "is_anomaly" = some (.boolean flags) ∧
      flags.length = df.nRows ∧
      (∀ n, n ≠ "is_anomaly" →
        (detect_anomalies df t).getCol n = df.getCol n) ∧
      (∀ i, i < df.nRows →
        (flags.getD i false = true ↔
          ∃ p ∈ df.cols, ∃ rv, p.2.rview = some rv ∧
            ∃ v, rv.getD i none = some v ∧
              (t : ℝ) < |(v - meanR rv) / Real.sqrt (svarR rv)|)) := by
  unfold detect_anomalies
  split_ifs with hempty
  · refine ⟨List.replicate df.nRows false, getCol_setCol_self _ _ _, by simp,
      fun n hn => getCol_setCol_ne _ _ _ _ hn, ?_⟩
    intro i _
    rw [getD_replicate_false]
    constructor
    · intro h
      cases h
    · rintro ⟨p, hp, rv, hrv, -⟩
      have : rv ∈ numViews df := mem_numViews.2 ⟨p, hp, hrv⟩
      rw [List.isEmpty_iff.1 hempty] at this
      cases this
  · refine ⟨(List.range df.nRows).map
        (fun i => (numViews df).any (fun rv => cellFlag rv t i)),
      getCol_setCol_self _ _ _, by simp,
      fun n hn => getCol_setCol_ne _ _ _ _ hn, ?_⟩
    intro i hi
    rw [getD_range_map hi, List.any_eq_true]
    constructor
    · rintro ⟨rv, hrv, hflag⟩
      rcases mem_numViews.1 hrv with ⟨p, hp, hview⟩
      rcases (cellFlag_iff ht).1 hflag with ⟨v, hv, hlt⟩
      exact ⟨p, hp, rv, hview, v, hv, hlt⟩
    · rintro ⟨p, hp, rv, hview, v, hv, hlt⟩
      exact ⟨rv, mem_numViews.2 ⟨p, hp, hview⟩, (cellFlag_iff ht).2 ⟨v, hv, hlt⟩⟩

/-- C3 witness: the theorem applied to a concrete table at the default
threshold 3. -/
theorem c3_detect_anomalies_flags_witness :
    ∃ flags : List Bool,
      (detect_anomalies ⟨[("a", ColData.num [some 1, some 2])]⟩ 3).getCol
        "is_anomaly" = some (.boolean flags) ∧
      flags.length = DF.nRows ⟨[("a", ColData.num [some 1, some 2])]⟩ ∧
      (∀ n, n ≠ "is_anomaly" →
        (detect_anomalies ⟨[("a", ColData.num [some 1, some 2])]⟩ 3).getCol n
          = DF.getCol ⟨[("a", ColData.num [some 1, some 2])]⟩ n) ∧
      (∀ i, i < DF.nRows ⟨[("a", ColData.num [some 1, some 2])]⟩ →
        (flags.getD i false = true ↔
          ∃ p ∈ (DF.mk [("a", ColData.num [some 1, some 2])]).cols,
            ∃ rv, p.2.rview = some rv ∧
              ∃ v, rv.getD i none = some v ∧
                ((3 : ℚ) : ℝ) < |(v - meanR rv) / Real.sqrt (svarR rv)|)) :=
  c3_detect_anomalies_flags ⟨[("a", ColData.num [some 1, some 2])]⟩ 3 (by decide)

/-- Number of rows flagged anomalous at a given threshold. -/
noncomputable def anomalyCount (df : DF) (t : ℚ) : ℕ :=
  match (detect_anomalies df t).getCol "is_anomaly" with
  | some (.boolean flags) => flags.count true
  | _ => 0

theorem count_true_map_le {f g : ℕ → Bool} (l : List ℕ)
    (hfg : ∀ i ∈ l, f i = true → g i = true) :
    (l.map f).count true ≤ (l.map g).count true := by
  induction l with
  | nil => exact le_refl 0
  | cons a tl ih =>
    have htl : ∀ i ∈ tl, f i = true → g i = true :=
      fun i hi => hfg i (List.mem_cons_of_mem _ hi)
    have hih := ih htl
    rw [List.map_cons, List.map_cons, List.count_cons, List.count_cons]
    cases hfa : f a with
    | true =>
      rw [hfg a (List.mem_cons_self _ _) hfa]
      simp only [beq_self_eq_true, if_true]
      omega
    | false =>
      cases hga : g a <;> simp <;> omega

/-- C7: `detect_anomalies` is antitone in its threshold: raising the
threshold never increases the number of rows flagged anomalous. -/
theorem c7_detect_anomalies_antitone (df : DF) (t1 t2 : ℚ) (h : t1 ≤ t2) :
    anomalyCount df t2 ≤ anomalyCount df t1 := by
  unfold anomalyCount detect_anomalies
  split_ifs with hempty
  · rw [getCol_setCol_self]
  · rw [getCol_setCol_self, getCol_setCol_self]
    exact count_true_map_le _ (by
      intro i _ hf
      rw [List.any_eq_true] at hf ⊢
      rcases hf with ⟨rv, hrv, hflag⟩
      exact ⟨rv, hrv, cellFlag_mono h hflag⟩)

/-- C7 witness: the theorem applied to a concrete table and thresholds
2 ≤ 3. -/
theorem c7_detect_anomalies_antitone_witness :
    anomalyCount ⟨[("a", ColData.num [some 1, some 2, none])]⟩ 3 ≤
      anomalyCount ⟨[("a", ColData.num [some 1, some 2, none])]⟩ 2 :=
  c7_detect_anomalies_antitone ⟨[("a", ColData.num [some 1, some 2, none])]⟩
    2 3 (by decide)

end Cemint
